import Mathlib

/-!
GenericMatrix: compile-time index lists, fixed-size vectors and matrices

A shallow embedding of `constexpr_list.hpp`, `generic_vector.hpp` and
`generic_matrix.hpp`.

* A `ConstexprList<T, Vs...>` is the `List` of its values.  A class template whose
  primary template is the empty `struct` has no `type` / `value` member when no
  partial specialisation matches, and naming that member is ill-formed: such
  computations return `Option`, with `none` for "no such member".
* `std::array<T, N>` is a function `Fin N → T`; `operator[]` with an index outside
  the array has no defined result and is `none` where the embedding needs it.
* The element type `T` is a commutative ring with decidable equality (`ZERO_VALUE`
  is `0`, `IDENTITY_VALUE` is `1`); its `/` is passed to `invert` as `dv`, which has
  no result where the quotient is not defined.  The `int` of the tests is `CInt`,
  the integers modulo 2^32 with the truncating signed division `CInt.div`.
* A reference parameter that may name the object itself (`m.invert(m)`) is an `Option`,
  `none` for the object itself.
* A default-initialised local (`GenericMatrix out;`) has an indeterminate value; it
  is a parameter of the function that declares it.
-/

/-! ## constexpr_list.hpp -/

/-- Embeds `ConstexprListGet<I, IL>::value`: the head for `I = 0`, else the value at `I - 1`
of the rest; the primary template (an empty list is left) has no `value`. -/
def ConstexprListGet {α : Type} : Nat → List α → Option α
  | 0, V :: _ => some V
  | I + 1, _ :: Vs => ConstexprListGet I Vs
  | _, [] => none

/-- Embeds `ConstexprListCat<IL1, IL2>::type`. -/
def ConstexprListCat {α : Type} (IL1 IL2 : List α) : List α :=
  IL1 ++ IL2

/-- Embeds `ConstexprListEraseImpl<I, HeadList, TailList>::type`: both partial
specialisations need a non-empty `TailList`; otherwise the primary template, which
has no `type`, is selected. -/
def ConstexprListEraseImpl {α : Type} : Nat → List α → List α → Option (List α)
  | 0, Head, _ :: Tail => some (Head ++ Tail)
  | I + 1, Head, V :: Tail => ConstexprListEraseImpl I (Head ++ [V]) Tail
  | _, _, [] => none

/-- Embeds `ConstexprListErase<I, IL>::type` (`ConstexprListEraseT`). -/
def ConstexprListErase {α : Type} (I : Nat) (IL : List α) : Option (List α) :=
  ConstexprListEraseImpl I [] IL

/-- Embeds `ConstexprListSequence<size_t, Size, Start>::type` (`ConstexprListSequenceT`). -/
def ConstexprListSequence : Nat → Nat → List Nat
  | 0, _ => []
  | Size + 1, Start => ConstexprListCat [Start] (ConstexprListSequence Size (Start + 1))

/-- The largest `size_t` (64-bit targets). -/
def SIZE_MAX : Nat := 2 ^ 64 - 1

/-- The `size_t` expression `d - 1`: unsigned subtraction wraps round at zero. -/
def sizeMinusOne (d : Nat) : Nat :=
  if d = 0 then SIZE_MAX else d - 1

/-- The `size_t` expression `a - b`: unsigned subtraction wraps round. -/
def sizeSub (a b : Nat) : Nat :=
  if b ≤ a then a - b else a + (SIZE_MAX + 1) - b

/-- Embeds `ConstexprListHeadImpl<End, HeadList, TailList>::type`: `HeadList` for
`End = 0`; otherwise `ConstexprListHeadShift` moves the first value of `TailList` to the
end of `HeadList`, and has no `type` when `TailList` is empty. -/
def ConstexprListHeadImpl {α : Type} : Nat → List α → List α → Option (List α)
  | 0, Head, _ => some Head
  | End + 1, Head, V :: Tail => ConstexprListHeadImpl End (Head ++ [V]) Tail
  | _ + 1, _, [] => none

/-- Embeds `ConstexprListHead<End, IL>::type` (`ConstexprListHeadT`). -/
def ConstexprListHead {α : Type} (End : Nat) (IL : List α) : Option (List α) :=
  ConstexprListHeadImpl End [] IL

/-- Embeds `ConstexprListTailImpl<Begin, HeadList, TailList>::type`: `TailList` for
`Begin = 0`; otherwise `ConstexprListTailShift` moves the first value of `TailList` to
the end of `HeadList`, and has no `type` when `TailList` is empty. -/
def ConstexprListTailImpl {α : Type} : Nat → List α → List α → Option (List α)
  | 0, _, Tail => some Tail
  | Begin + 1, Head, V :: Tail => ConstexprListTailImpl Begin (Head ++ [V]) Tail
  | _ + 1, _, [] => none

/-- Embeds `ConstexprListTail<Begin, IL>::type` (`ConstexprListTailT`). -/
def ConstexprListTail {α : Type} (Begin : Nat) (IL : List α) : Option (List α) :=
  ConstexprListTailImpl Begin [] IL

/-- Embeds `ConstexprListRange<Begin, End, IL>::type` (`ConstexprListRangeT`):
`ConstexprListHead<End - Begin, ConstexprListTailT<Begin, IL>>`. -/
def ConstexprListRange {α : Type} (Begin End : Nat) (IL : List α) : Option (List α) := do
  let tail ← ConstexprListTail Begin IL
  ConstexprListHead (sizeSub End Begin) tail

/-! ## The element type `int` -/

/-- The element type `int` of the tests, 32 bits wide: a value is its residue modulo 2^32,
and `+`, `-` and `*` wrap round on overflow, as the two's-complement target computes
them. -/
abbrev CInt : Type := ZMod (2 ^ 32)

/-- The least `int`, −2^31. -/
def INT_MIN : CInt := 2 ^ 31

/-- The signed value of an `int`: the residues from 2^31 on stand for the negative values. -/
def CInt.toInt (x : CInt) : Int :=
  if x.val < 2 ^ 31 then (x.val : Int) else (x.val : Int) - 2 ^ 32

/-- The `/` of `int`: the quotient truncated towards zero; no result for a zero divisor
and for `INT_MIN / -1`, whose quotient no `int` holds. -/
def CInt.div (x y : CInt) : Option CInt :=
  if y = 0 then none
  else if x = INT_MIN ∧ y = -1 then none
  else some ((Int.tdiv x.toInt y.toInt : Int) : CInt)

/-! ## generic_vector.hpp -/

/-- Embeds `GenericVector<T, N>`: a `std::array<T, N>`. -/
abbrev GenericVector (T : Type) (N : Nat) : Type := Fin N → T

/-- Embeds `GenericVector::ZERO_VALUE`. -/
def ZERO_VALUE {T : Type} [CommRing T] : T := 0

/-- Embeds `GenericVector::IDENTITY_VALUE`. -/
def IDENTITY_VALUE {T : Type} [CommRing T] : T := 1

/-- Embeds `GenericVector::get<I>()`. -/
def GenericVector.get {T : Type} [CommRing T] {N : Nat} (v : GenericVector T N) (I : Nat) : T :=
  if h : I < N then v ⟨I, h⟩ else ZERO_VALUE

/-- Embeds `GenericVector::set<I>(v)`: the vector after the call. -/
def GenericVector.set {T : Type} {N : Nat} (self : GenericVector T N) (I : Nat) (v : T) :
    GenericVector T N :=
  if h : I < N then Function.update self ⟨I, h⟩ v else self

/-- The loop `body(0); body(1); ...; body(N - 1)` of `forEachElementImpl<0>` and
`forEachRowImpl<0>`, and of `for (size_t i = 0; i != N; ++i)`, threading the state the
body mutates. -/
def forEachIndex {σ : Type} (N : Nat) (body : Fin N → σ → σ) (s : σ) : σ :=
  (List.finRange N).foldl (fun acc i => body i acc) s

/-- Embeds `GenericVector::forEachElement(body)`. -/
def GenericVector.forEachElement {σ : Type} (N : Nat) (body : Fin N → σ → σ) (s : σ) : σ :=
  forEachIndex N body s

/-- Embeds `GenericVector::operator==`: false at the first differing position. -/
def GenericVector.eq {T : Type} [DecidableEq T] {N : Nat} (lhs rhs : GenericVector T N) : Bool :=
  (List.finRange N).all (fun i => decide (lhs i = rhs i))

/-- Embeds `GenericSubVector<TVector, TIndexList>`: a reference to a vector and an index list. -/
structure GenericSubVector (T : Type) (N : Nat) where
  m_vector : GenericVector T N
  index_list : List Nat

/-- Embeds `GenericSubVector::get<I>()`. -/
def GenericSubVector.get {T : Type} [CommRing T] {N : Nat} (self : GenericSubVector T N)
    (I : Nat) : Option T :=
  if I < self.index_list.length then
    (ConstexprListGet I self.index_list).map (fun J => GenericVector.get self.m_vector J)
  else
    some ZERO_VALUE

/-- Embeds `GenericSubVector::set<I>(v)`: the referenced vector after the call. -/
def GenericSubVector.set {T : Type} {N : Nat} (self : GenericSubVector T N) (I : Nat) (v : T) :
    Option (GenericVector T N) :=
  if I < self.index_list.length then
    (ConstexprListGet I self.index_list).map (fun J => GenericVector.set self.m_vector J v)
  else
    some self.m_vector

/-! ## generic_matrix.hpp: GenericMatrix accessors -/

/-- Embeds `GenericMatrix<T, COLUMNS, ROWS>`: a `std::array<GenericVector<T, COLUMNS>, ROWS>`. -/
abbrev GenericMatrix (T : Type) (COLUMNS ROWS : Nat) : Type := Fin ROWS → GenericVector T COLUMNS

/-- Embeds `GenericMatrix::dimension()`. -/
def GenericMatrix.dimension (COLUMNS ROWS : Nat) : Nat := max COLUMNS ROWS

/-- Embeds `GenericMatrix::get<ROW>()`, that is `(*this)[ROW]`. -/
def GenericMatrix.getRow {T : Type} {COLUMNS ROWS : Nat} (self : GenericMatrix T COLUMNS ROWS)
    (ROW : Nat) : Option (GenericVector T COLUMNS) :=
  if h : ROW < ROWS then some (self ⟨ROW, h⟩) else none

/-- Embeds `GenericMatrix::get<ROW, COLUMN>()`. -/
def GenericMatrix.get {T : Type} [CommRing T] {COLUMNS ROWS : Nat}
    (self : GenericMatrix T COLUMNS ROWS) (ROW COLUMN : Nat) : T :=
  if h : ROW < ROWS ∧ COLUMN < COLUMNS then
    GenericVector.get (self ⟨ROW, h.1⟩) COLUMN
  else if ROW = COLUMN then IDENTITY_VALUE
  else ZERO_VALUE

/-- Embeds `GenericMatrix::set<ROW, COLUMN>(v)`: the matrix after the call. -/
def GenericMatrix.set {T : Type} {COLUMNS ROWS : Nat} (self : GenericMatrix T COLUMNS ROWS)
    (ROW COLUMN : Nat) (v : T) : GenericMatrix T COLUMNS ROWS :=
  if h : ROW < ROWS ∧ COLUMN < COLUMNS then
    Function.update self ⟨ROW, h.1⟩ (GenericVector.set (self ⟨ROW, h.1⟩) COLUMN v)
  else self

/-- Embeds `GenericMatrix::forEachRow(body)`. -/
def GenericMatrix.forEachRow {σ : Type} (ROWS : Nat) (body : Fin ROWS → σ → σ) (s : σ) : σ :=
  forEachIndex ROWS body s

/-- Embeds `GenericMatrix::forEach(body)`: for each row, for each element of the row. -/
def GenericMatrix.forEach {σ : Type} (COLUMNS ROWS : Nat)
    (body : Fin ROWS → Fin COLUMNS → σ → σ) (s : σ) : σ :=
  GenericMatrix.forEachRow ROWS
    (fun row acc => GenericVector.forEachElement COLUMNS (fun column acc2 => body row column acc2) acc)
    s

/-- The assignment `m[r][c] = v` through `std::array::operator[]`. -/
def GenericMatrix.assign {T : Type} {COLUMNS ROWS : Nat} (m : GenericMatrix T COLUMNS ROWS)
    (r : Fin ROWS) (c : Fin COLUMNS) (v : T) : GenericMatrix T COLUMNS ROWS :=
  Function.update m r (Function.update (m r) c v)

/-- Embeds `GenericMatrix::identity()`. -/
def GenericMatrix.identity (T : Type) [CommRing T] (COLUMNS ROWS : Nat) :
    GenericMatrix T COLUMNS ROWS :=
  forEachIndex (min ROWS COLUMNS)
    (fun i result =>
      GenericMatrix.assign result ⟨i.1, lt_of_lt_of_le i.2 (min_le_left _ _)⟩
        ⟨i.1, lt_of_lt_of_le i.2 (min_le_right _ _)⟩ IDENTITY_VALUE)
    (fun _ _ => ZERO_VALUE)

/-- Embeds `GenericMatrix::operator==`: false at the first differing entry. -/
def GenericMatrix.eq {T : Type} [DecidableEq T] {COLUMNS ROWS : Nat}
    (lhs rhs : GenericMatrix T COLUMNS ROWS) : Bool :=
  (List.finRange ROWS).all (fun r => (List.finRange COLUMNS).all (fun c => decide (lhs r c = rhs r c)))

/-! ## generic_matrix.hpp: GenericSubMatrix -/

/-- Embeds `GenericSubMatrix<TMatrix, RowList, ColumnList>`: a reference to a matrix with the
lists of its active rows and columns. -/
structure GenericSubMatrix (T : Type) (COLUMNS ROWS : Nat) where
  m_matrix : GenericMatrix T COLUMNS ROWS
  RowList : List Nat
  ColumnList : List Nat

/-- Embeds `GenericSubMatrix::columns()`. -/
def GenericSubMatrix.columns {T : Type} {COLUMNS ROWS : Nat}
    (self : GenericSubMatrix T COLUMNS ROWS) : Nat :=
  self.ColumnList.length

/-- Embeds `GenericSubMatrix::rows()`. -/
def GenericSubMatrix.rows {T : Type} {COLUMNS ROWS : Nat}
    (self : GenericSubMatrix T COLUMNS ROWS) : Nat :=
  self.RowList.length

/-- Embeds `GenericSubMatrix::dimension()`. -/
def GenericSubMatrix.dimension {T : Type} {COLUMNS ROWS : Nat}
    (self : GenericSubMatrix T COLUMNS ROWS) : Nat :=
  max self.ColumnList.length self.RowList.length

/-- Embeds `GenericSubMatrix::get<ROW>()`: the row `ConstexprListGetV<ROW, RowList>` of the
matrix, seen through `ColumnList`. -/
def GenericSubMatrix.getRow {T : Type} {COLUMNS ROWS : Nat}
    (self : GenericSubMatrix T COLUMNS ROWS) (ROW : Nat) : Option (GenericSubVector T COLUMNS) := do
  let R ← ConstexprListGet ROW self.RowList
  let row ← GenericMatrix.getRow self.m_matrix R
  pure ⟨row, self.ColumnList⟩

/-- Embeds `GenericSubMatrix::get<ROW, COLUMN>()`. -/
def GenericSubMatrix.get {T : Type} [CommRing T] {COLUMNS ROWS : Nat}
    (self : GenericSubMatrix T COLUMNS ROWS) (ROW COLUMN : Nat) : Option T :=
  if ROW < self.RowList.length ∧ COLUMN < self.ColumnList.length then do
    let row ← self.getRow ROW
    row.get COLUMN
  else if ROW = COLUMN then some IDENTITY_VALUE
  else some ZERO_VALUE

/-- Embeds `GenericSubMatrix::subMatrix<ROW, COLUMN>()`: exists when both erased lists do. -/
def GenericSubMatrix.subMatrix {T : Type} {COLUMNS ROWS : Nat}
    (self : GenericSubMatrix T COLUMNS ROWS) (ROW COLUMN : Nat) :
    Option (GenericSubMatrix T COLUMNS ROWS) := do
  let rowList ← ConstexprListErase ROW self.RowList
  let columnList ← ConstexprListErase COLUMN self.ColumnList
  pure ⟨self.m_matrix, rowList, columnList⟩

/-- The statements of `GenericSubMatrix::det<I>()` before `if constexpr (I > 0)`: the
signed entry `get<0, I>()` times `subMatrix<0, I>().determinant()`, with `determinant`
the member called on that view. -/
def GenericSubMatrix.detTerm {T : Type} [CommRing T] {COLUMNS ROWS : Nat}
    (determinant : GenericSubMatrix T COLUMNS ROWS → Option T)
    (self : GenericSubMatrix T COLUMNS ROWS) (I : Nat) : Option T := do
  let d ← self.get 0 I
  let d := if I % 2 ≠ 0 then -d else d
  let sub ← self.subMatrix 0 I
  let s ← determinant sub
  pure (d * s)

/-- Embeds `GenericSubMatrix::det<I>()`: `d += det<I - 1>()` when `I > 0`. -/
def GenericSubMatrix.det {T : Type} [CommRing T] {COLUMNS ROWS : Nat}
    (determinant : GenericSubMatrix T COLUMNS ROWS → Option T)
    (self : GenericSubMatrix T COLUMNS ROWS) : Nat → Option T
  | 0 => GenericSubMatrix.detTerm determinant self 0
  | J + 1 => do
    let d ← GenericSubMatrix.detTerm determinant self (J + 1)
    let rest ← GenericSubMatrix.det determinant self J
    pure (d + rest)

/-- Embeds `GenericSubMatrix::determinant()` with a bound on the depth of nested
`determinant()` instantiations. -/
def GenericSubMatrix.determinantAux {T : Type} [CommRing T] {COLUMNS ROWS : Nat} :
    Nat → GenericSubMatrix T COLUMNS ROWS → Option T
  | 0, _ => none
  | depth + 1, self =>
    if self.dimension = 1 then self.get 0 0
    else GenericSubMatrix.det (GenericSubMatrix.determinantAux depth) self
      (sizeMinusOne self.dimension)

/-- Embeds `GenericSubMatrix::determinant()`: every nested view has a smaller `dimension()`,
so `dimension() + 1` levels are all there are. -/
def GenericSubMatrix.determinant {T : Type} [CommRing T] {COLUMNS ROWS : Nat}
    (self : GenericSubMatrix T COLUMNS ROWS) : Option T :=
  GenericSubMatrix.determinantAux (self.dimension + 1) self

/-! ## generic_matrix.hpp: GenericMatrix algebra -/

/-- Embeds `GenericSubMatrix<const GenericMatrix>(*this)`: the view with the default lists
`ConstexprListSequenceT<size_t, rows()>` and `ConstexprListSequenceT<size_t, columns()>`. -/
def GenericMatrix.view {T : Type} {COLUMNS ROWS : Nat} (self : GenericMatrix T COLUMNS ROWS) :
    GenericSubMatrix T COLUMNS ROWS :=
  ⟨self, ConstexprListSequence ROWS 0, ConstexprListSequence COLUMNS 0⟩

/-- Embeds `GenericMatrix::subMatrix<ROW, COLUMN>()`. -/
def GenericMatrix.subMatrix {T : Type} {COLUMNS ROWS : Nat} (self : GenericMatrix T COLUMNS ROWS)
    (ROW COLUMN : Nat) : Option (GenericSubMatrix T COLUMNS ROWS) := do
  let rowList ← ConstexprListErase ROW (ConstexprListSequence ROWS 0)
  let columnList ← ConstexprListErase COLUMN (ConstexprListSequence COLUMNS 0)
  pure ⟨self, rowList, columnList⟩

/-- Embeds `GenericMatrix::determinant()`. -/
def GenericMatrix.determinant {T : Type} [CommRing T] {COLUMNS ROWS : Nat}
    (self : GenericMatrix T COLUMNS ROWS) : Option T :=
  (GenericMatrix.view self).determinant

/-- The private `GenericMatrix::invert(out, det)`: the value of `out` after the call.  The
reference `out` names another matrix (`some`), or the matrix itself (`none`): then every
entry written is an entry of the matrix the later cofactors are read from.  The `/` of
the element type is `dv`, with no result where the quotient is not defined. -/
def GenericMatrix.invertInto {T : Type} [CommRing T] {COLUMNS ROWS : Nat} (dv : T → T → Option T)
    (self : GenericMatrix T COLUMNS ROWS) (out : Option (GenericMatrix T COLUMNS ROWS)) (det : T) :
    Option (GenericMatrix T COLUMNS ROWS) :=
  GenericMatrix.forEach COLUMNS ROWS
    (fun row column acc => do
      let current ← acc
      let this := if out.isNone then current else self
      let sub ← GenericMatrix.subMatrix this column.1 row.1
      let c ← sub.determinant
      let c := if (row.1 + column.1) % 2 ≠ 0 then -c else c
      let q ← dv c det
      pure (GenericMatrix.assign current row column q))
    (some (out.getD self))

/-- Whether `invert(out, det)` can be instantiated: each `subMatrix<column, row>()` and
its `determinant()` that the body names must exist.  This depends on the shape only. -/
def GenericMatrix.invertInstantiates {T : Type} [CommRing T] {COLUMNS ROWS : Nat}
    (self : GenericMatrix T COLUMNS ROWS) : Bool :=
  GenericMatrix.forEach COLUMNS ROWS
    (fun row column acc =>
      acc && ((GenericMatrix.subMatrix self column.1 row.1).bind
        GenericSubMatrix.determinant).isSome)
    true

/-- Embeds `GenericMatrix::invert(GenericMatrix& out)`: the returned flag and the value of `out`
after the call; `out` names another matrix (`some`) or the matrix itself (`none`).
Instantiating the member instantiates `invert(out, det)` whichever way the run-time
test goes, so an ill-formed `invert(out, det)` leaves no call at all. -/
def GenericMatrix.invertOut {T : Type} [CommRing T] [DecidableEq T] {COLUMNS ROWS : Nat}
    (dv : T → T → Option T) (self : GenericMatrix T COLUMNS ROWS)
    (out : Option (GenericMatrix T COLUMNS ROWS)) :
    Option (Bool × GenericMatrix T COLUMNS ROWS) := do
  let det ← GenericMatrix.determinant self
  if GenericMatrix.invertInstantiates self = false then none
  else if det = ZERO_VALUE then pure (false, out.getD self)
  else do
    let inverted ← GenericMatrix.invertInto dv self out det
    pure (true, inverted)

/-- Embeds `GenericMatrix::invert()`: `none` also when the `assert` fails; `out` is the
indeterminate initial value of the local `GenericMatrix out;`, which is not the matrix
itself. -/
def GenericMatrix.invert {T : Type} [CommRing T] [DecidableEq T] {COLUMNS ROWS : Nat}
    (dv : T → T → Option T) (self out : GenericMatrix T COLUMNS ROWS) :
    Option (GenericMatrix T COLUMNS ROWS) := do
  let det ← GenericMatrix.determinant self
  if det = ZERO_VALUE then none
  else GenericMatrix.invertInto dv self (some out) det

/-- Embeds `operator*(const GenericVector<T, N>&, const GenericMatrix<T, COLUMNS, ROWS>&)`,
enabled when `N <= ROWS`; `result` is the indeterminate initial value of the local. -/
def GenericVector.mulMatrix {T : Type} [CommRing T] {N COLUMNS ROWS : Nat} (hN : N ≤ ROWS)
    (result : GenericVector T COLUMNS) (lhs : GenericVector T N)
    (rhs : GenericMatrix T COLUMNS ROWS) : GenericVector T COLUMNS :=
  GenericVector.forEachElement COLUMNS
    (fun column result =>
      let e := GenericVector.forEachElement N
        (fun row e => e + lhs row * rhs (Fin.castLE hN row) column) ZERO_VALUE
      Function.update result column e)
    result

/-- Embeds `operator*(const GenericMatrix<T, N, ROWS>&, const GenericMatrix<T, COLUMNS, N>&)`;
`result` is the indeterminate initial value of the local, `rowResult r` that of the
local of the vector product computed for row `r`. -/
def GenericMatrix.mul {T : Type} [CommRing T] {N COLUMNS ROWS : Nat}
    (result : GenericMatrix T COLUMNS ROWS) (rowResult : Fin ROWS → GenericVector T COLUMNS)
    (lhs : GenericMatrix T N ROWS) (rhs : GenericMatrix T COLUMNS N) :
    GenericMatrix T COLUMNS ROWS :=
  GenericMatrix.forEachRow ROWS
    (fun row result =>
      Function.update result row (GenericVector.mulMatrix (le_refl N) (rowResult row) (lhs row) rhs))
    result

/-- Embeds `operator*=(GenericVector<T, N>&, const GenericMatrix<T, COLUMNS, ROWS>&)` for
`COLUMNS == N`, where `lhs = lhs * rhs` assigns the whole product: the value of `lhs`
after the call. -/
def GenericVector.mulAssign {T : Type} [CommRing T] {N ROWS : Nat} (hN : N ≤ ROWS)
    (result : GenericVector T N) (lhs : GenericVector T N) (rhs : GenericMatrix T N ROWS) :
    GenericVector T N :=
  GenericVector.mulMatrix hN result lhs rhs

/-! ## The matrices of test_generic_matrix.cpp -/

/-- Embeds `s_cw`: rotation to 90 deg CW. -/
def s_cw : GenericMatrix Int 2 2 := ![![0, -1], ![1, 0]]

/-- Embeds `s_ccw`: rotation to 90 deg CCW. -/
def s_ccw : GenericMatrix Int 2 2 := ![![0, 1], ![-1, 0]]

/-- The matrix `m` of the first test case. -/
def test_m : GenericMatrix Int 2 2 := ![![1, -2], ![2, 3]]

/-- The 3-row, 2-column `ccw` of the origin test. -/
def test_ccw32 : GenericMatrix Int 2 3 := ![![0, 1], ![-1, 0], ![0, 0]]

/-- The `pivot` matrix of the pivot test. -/
def test_pivot : GenericMatrix Int 3 3 := ![![1, 0, 0], ![0, 1, 0], ![1, 2, 1]]

/-- The matrix [[2,0],[0,2]], whose determinant 4 divides none of its non-zero cofactors. -/
def test_double : GenericMatrix Int 2 2 := ![![2, 0], ![0, 2]]

/-- The singular matrix [[1,2],[2,4]]. -/
def test_singular : GenericMatrix Int 2 2 := ![![1, 2], ![2, 4]]

/-- The matrix [[1,2,3],[4,5,6]] with 2 rows and 3 columns. -/
def test_wide : GenericMatrix Int 3 2 := ![![1, 2, 3], ![4, 5, 6]]

/-- The `ccw` matrix of the pivot test. -/
def test_ccw3 : GenericMatrix Int 3 3 := ![![0, 1, 0], ![-1, 0, 0], ![0, 0, 1]]

/-- The matrix of `int` elements with the given values. -/
def GenericMatrix.toCInt {COLUMNS ROWS : Nat} (M : GenericMatrix Int COLUMNS ROWS) :
    GenericMatrix CInt COLUMNS ROWS :=
  fun r c => ((M r c : Int) : CInt)

/-- The matrix [[INT_MIN, 1], [1, 0]], whose determinant is −1. -/
def test_int_min : GenericMatrix CInt 2 2 := ![![INT_MIN, 1], ![1, 0]]

/-- The matrix [[1,2],[3,5]], whose determinant is −1. -/
def test_alias : GenericMatrix CInt 2 2 := ![![1, 2], ![3, 5]]

/-! ## Definitions used to state the properties -/

/-- The entry of the matrix a view reads at row `R` and column `C` of the underlying matrix. -/
def GenericMatrix.entry {T : Type} [CommRing T] {COLUMNS ROWS : Nat}
    (self : GenericMatrix T COLUMNS ROWS) (R C : Nat) : T :=
  if h : R < ROWS then GenericVector.get (self ⟨R, h⟩) C else 0

/-- The entries of a view with `n` active rows and columns. -/
def viewMatrix {T : Type} [CommRing T] {COLUMNS ROWS : Nat}
    (M : GenericMatrix T COLUMNS ROWS) (rows cols : List Nat) (n : Nat) : Matrix (Fin n) (Fin n) T :=
  Matrix.of fun r c => GenericMatrix.entry M (rows.getD r.1 0) (cols.getD c.1 0)

/-- The matrix left when row `ROW` and column `COLUMN` of a square matrix are deleted. -/
def GenericMatrix.minor {T : Type} {n : Nat} (M : GenericMatrix T (n + 1) (n + 1))
    (ROW COLUMN : Fin (n + 1)) : GenericMatrix T n n :=
  fun r c => M (ROW.succAbove r) (COLUMN.succAbove c)

/-- The zero-extension of a vector to length `ROWS`, read with `get<I>()`. -/
def GenericVector.extend {T : Type} [CommRing T] {N : Nat} (v : GenericVector T N) (ROWS : Nat) :
    GenericVector T ROWS :=
  fun r => GenericVector.get v r.1

/-- The position that view position `i` had before position `k` was erased. -/
def skipIndex (k i : Nat) : Nat :=
  if i < k then i else i + 1

/-- The square matrix of size `n` whose entry `(r, c)` is `get<r, c>()`: the stored value
inside the declared shape, 1 on the diagonal and 0 elsewhere outside it. -/
def GenericMatrix.padded {T : Type} [CommRing T] {COLUMNS ROWS : Nat}
    (M : GenericMatrix T COLUMNS ROWS) (n : Nat) : Matrix (Fin n) (Fin n) T :=
  Matrix.of fun r c => GenericMatrix.get M r.1 c.1

/-- The list left after `ConstexprListErase` is applied at each of the positions `is` in
turn; no list when one of the positions is not a position of the list it is applied to. -/
def eraseMany {α : Type} : List Nat → List α → Option (List α)
  | [], IL => some IL
  | I :: rest, IL => (ConstexprListErase I IL).bind (eraseMany rest)

/-- The view left after `subMatrix<ROW, COLUMN>()` is applied for each pair of `ps` in
turn; no view when one of the calls has no well-formed instantiation. -/
def subMatrixMany {T : Type} {COLUMNS ROWS : Nat} :
    List (Nat × Nat) → GenericSubMatrix T COLUMNS ROWS → Option (GenericSubMatrix T COLUMNS ROWS)
  | [], v => some v
  | p :: rest, v => (v.subMatrix p.1 p.2).bind (subMatrixMany rest)

/-! ## Lemmas -/

theorem ConstexprListGet_eq_getElem {α : Type} (I : Nat) (IL : List α) :
    ConstexprListGet I IL = IL[I]? := by
  induction IL generalizing I with
  | nil => cases I <;> simp [ConstexprListGet]
  | cons V Vs ih => cases I <;> simp [ConstexprListGet, ih]

theorem ConstexprListEraseImpl_eq {α : Type} (I : Nat) (Head IL : List α) :
    ConstexprListEraseImpl I Head IL =
      if I < IL.length then some (Head ++ IL.eraseIdx I) else none := by
  induction I generalizing Head IL with
  | zero => cases IL <;> simp [ConstexprListEraseImpl]
  | succ I ih =>
    cases IL with
    | nil => simp [ConstexprListEraseImpl]
    | cons V Tail => simp [ConstexprListEraseImpl, ih]

theorem ConstexprListErase_eq {α : Type} (I : Nat) (IL : List α) :
    ConstexprListErase I IL = if I < IL.length then some (IL.eraseIdx I) else none := by
  simp [ConstexprListErase, ConstexprListEraseImpl_eq]

theorem GenericSubMatrix.get_of_lt {T : Type} [CommRing T] {COLUMNS ROWS : Nat}
    (M : GenericMatrix T COLUMNS ROWS) (rows cols : List Nat) (r c : Nat)
    (hr : r < rows.length) (hc : c < cols.length) (hrows : ∀ x ∈ rows, x < ROWS) :
    GenericSubMatrix.get ⟨M, rows, cols⟩ r c =
      some (GenericMatrix.entry M (rows.getD r 0) (cols.getD c 0)) := by
  have h1 : rows[r] < ROWS := hrows _ (List.getElem_mem _)
  simp [GenericSubMatrix.get, GenericSubMatrix.getRow, GenericSubVector.get, hr, hc,
    ConstexprListGet_eq_getElem, GenericMatrix.getRow, GenericMatrix.entry, h1,
    List.getD_eq_getElem?_getD]

theorem GenericSubMatrix.subMatrix_of_lt {T : Type} {COLUMNS ROWS : Nat}
    (M : GenericMatrix T COLUMNS ROWS) (rows cols : List Nat) (r c : Nat)
    (hr : r < rows.length) (hc : c < cols.length) :
    GenericSubMatrix.subMatrix ⟨M, rows, cols⟩ r c =
      some ⟨M, rows.eraseIdx r, cols.eraseIdx c⟩ := by
  simp [GenericSubMatrix.subMatrix, ConstexprListErase_eq, hr, hc]

theorem GenericSubMatrix.det_eq_sum {T : Type} [CommRing T] {COLUMNS ROWS : Nat}
    (f : GenericSubMatrix T COLUMNS ROWS → Option T) (v : GenericSubMatrix T COLUMNS ROWS)
    (t : Nat → T) (I : Nat) (h : ∀ i ≤ I, GenericSubMatrix.detTerm f v i = some (t i)) :
    GenericSubMatrix.det f v I = some (∑ i ∈ Finset.range (I + 1), t i) := by
  induction I with
  | zero => simp [GenericSubMatrix.det, h 0 (le_refl 0)]
  | succ J ih =>
    have h1 := ih (fun i hi => h i (Nat.le_succ_of_le hi))
    simp only [GenericSubMatrix.det, h (J + 1) (le_refl _), h1, Option.bind_eq_bind,
      Option.some_bind, Option.pure_def]
    rw [Finset.sum_range_succ _ (J + 1), add_comm]

theorem getD_eraseIdx (L : List Nat) (i c : Nat) :
    (L.eraseIdx i).getD c 0 = L.getD (if c < i then c else c + 1) 0 := by
  simp only [List.getD_eq_getElem?_getD, List.getElem?_eraseIdx]
  split <;> rfl

theorem viewMatrix_eraseIdx {T : Type} [CommRing T] {COLUMNS ROWS : Nat}
    (M : GenericMatrix T COLUMNS ROWS) (rows cols : List Nat) (n : Nat) (i j : Fin (n + 1)) :
    viewMatrix M (rows.eraseIdx i.1) (cols.eraseIdx j.1) n =
      (viewMatrix M rows cols (n + 1)).submatrix i.succAbove j.succAbove := by
  ext r c
  simp only [viewMatrix, Matrix.of_apply, Matrix.submatrix_apply, getD_eraseIdx]
  congr 2
  · simp only [Fin.succAbove, Fin.lt_def, Fin.coe_castSucc]
    split <;> rfl
  · simp only [Fin.succAbove, Fin.lt_def, Fin.coe_castSucc]
    split <;> rfl

theorem mem_eraseIdx_lt {ROWS : Nat} (rows : List Nat) (i : Nat) (h : ∀ x ∈ rows, x < ROWS) :
    ∀ x ∈ rows.eraseIdx i, x < ROWS :=
  fun x hx => h x (List.mem_of_mem_eraseIdx hx)

theorem GenericSubMatrix.determinantAux_eq_det {T : Type} [CommRing T] {COLUMNS ROWS : Nat}
    (M : GenericMatrix T COLUMNS ROWS) (n : Nat) :
    ∀ (rows cols : List Nat) (depth : Nat), rows.length = n + 1 → cols.length = n + 1 →
      (∀ x ∈ rows, x < ROWS) → n + 1 ≤ depth →
      GenericSubMatrix.determinantAux depth ⟨M, rows, cols⟩ =
        some (Matrix.det (viewMatrix M rows cols (n + 1))) := by
  induction n with
  | zero =>
    intro rows cols depth hr hc hrows hd
    obtain ⟨d, rfl⟩ : ∃ d, depth = d + 1 := ⟨depth - 1, by omega⟩
    have hdim : GenericSubMatrix.dimension (⟨M, rows, cols⟩ : GenericSubMatrix T COLUMNS ROWS) = 1 := by
      simp [GenericSubMatrix.dimension, hr, hc]
    rw [GenericSubMatrix.determinantAux, if_pos hdim,
      GenericSubMatrix.get_of_lt M rows cols 0 0 (by omega) (by omega) hrows]
    simp [Matrix.det_fin_one, viewMatrix]
  | succ n ih =>
    intro rows cols depth hr hc hrows hd
    obtain ⟨d, rfl⟩ : ∃ d, depth = d + 1 := ⟨depth - 1, by omega⟩
    have hdim : GenericSubMatrix.dimension (⟨M, rows, cols⟩ : GenericSubMatrix T COLUMNS ROWS) = n + 2 := by
      simp [GenericSubMatrix.dimension, hr, hc]
    rw [GenericSubMatrix.determinantAux, if_neg (by rw [hdim]; omega), hdim]
    have hs : sizeMinusOne (n + 2) = n + 1 := by simp [sizeMinusOne]
    rw [hs]
    set A := viewMatrix M rows cols (n + 2) with hA
    rw [GenericSubMatrix.det_eq_sum _ _
      (fun i => if h : i < n + 2 then
        (-1) ^ i * A 0 ⟨i, h⟩ * Matrix.det (A.submatrix Fin.succ (Fin.succAbove ⟨i, h⟩)) else 0)]
    · rw [Matrix.det_succ_row_zero A, Finset.sum_range]
      congr 1
      apply Finset.sum_congr rfl
      intro i _
      simp [i.2]
    · intro i hi
      have hi2 : i < n + 2 := by omega
      have hsub := ih (rows.eraseIdx 0) (cols.eraseIdx i) d
        (by rw [List.length_eraseIdx]; simp [hr])
        (by rw [List.length_eraseIdx]; simp [hc, hi2])
        (mem_eraseIdx_lt rows 0 hrows) (by omega)
      rw [GenericSubMatrix.detTerm,
        GenericSubMatrix.get_of_lt M rows cols 0 i (by omega) (by omega) hrows,
        GenericSubMatrix.subMatrix_of_lt M rows cols 0 i (by omega) (by omega)]
      simp only [Option.bind_eq_bind, Option.some_bind, hsub, Option.pure_def, dif_pos hi2]
      have hv := viewMatrix_eraseIdx M rows cols (n + 1) 0 ⟨i, hi2⟩
      simp only [Fin.val_zero] at hv
      rw [hv]
      have hsa : (Fin.succAbove (0 : Fin (n + 2))) = Fin.succ := by
        funext k; simp
      rw [hsa]
      congr 2
      rcases Nat.even_or_odd i with he | ho
      · have : i % 2 = 0 := Nat.even_iff.1 he
        simp [this, he.neg_one_pow, hA, viewMatrix]
      · have : i % 2 = 1 := Nat.odd_iff.1 ho
        simp [this, ho.neg_one_pow, hA, viewMatrix]

theorem ConstexprListSequence_eq (Size Start : Nat) :
    ConstexprListSequence Size Start = List.range' Start Size := by
  induction Size generalizing Start with
  | zero => simp [ConstexprListSequence]
  | succ n ih => simp [ConstexprListSequence, ConstexprListCat, ih, List.range'_succ]

theorem getD_sequence (N i : Nat) (h : i < N) : (List.range' 0 N).getD i 0 = i := by
  simp [List.getD_eq_getElem?_getD, List.getElem?_range', h]

theorem GenericMatrix.entry_fin {T : Type} [CommRing T] {COLUMNS ROWS : Nat}
    (M : GenericMatrix T COLUMNS ROWS) (r : Fin ROWS) (c : Fin COLUMNS) :
    GenericMatrix.entry M r.1 c.1 = M r c := by
  simp [GenericMatrix.entry, GenericVector.get]

theorem viewMatrix_sequence {T : Type} [CommRing T] {N : Nat} (M : GenericMatrix T N N) :
    viewMatrix M (List.range' 0 N) (List.range' 0 N) N = Matrix.of M := by
  ext r c
  simp [viewMatrix, getD_sequence, GenericMatrix.entry_fin]

theorem mem_sequence_lt (N : Nat) : ∀ x ∈ List.range' 0 N, x < N := by
  intro x hx
  simpa [List.mem_range'_1] using hx

theorem GenericMatrix.determinant_eq_det {T : Type} [CommRing T] {n : Nat}
    (M : GenericMatrix T (n + 1) (n + 1)) :
    GenericMatrix.determinant M = some (Matrix.det (Matrix.of M)) := by
  unfold GenericMatrix.determinant GenericSubMatrix.determinant GenericMatrix.view
  simp only [ConstexprListSequence_eq]
  rw [GenericSubMatrix.determinantAux_eq_det M n _ _ _ (by simp) (by simp) (mem_sequence_lt _)
    (by simp [GenericSubMatrix.dimension]), viewMatrix_sequence]

theorem GenericMatrix.subMatrix_determinant_eq_det {T : Type} [CommRing T] {n : Nat}
    (M : GenericMatrix T (n + 2) (n + 2)) (i j : Fin (n + 2)) :
    (GenericMatrix.subMatrix M i.1 j.1).bind GenericSubMatrix.determinant =
      some (Matrix.det ((Matrix.of M).submatrix i.succAbove j.succAbove)) := by
  unfold GenericMatrix.subMatrix
  simp only [ConstexprListSequence_eq, ConstexprListErase_eq, List.length_range', i.2, j.2,
    if_true, Option.bind_eq_bind, Option.some_bind, Option.pure_def]
  unfold GenericSubMatrix.determinant
  rw [GenericSubMatrix.determinantAux_eq_det M n _ _ _
    (by rw [List.length_eraseIdx]; simp) (by rw [List.length_eraseIdx]; simp)
    (mem_eraseIdx_lt _ _ (mem_sequence_lt _))
    (by simp [GenericSubMatrix.dimension, List.length_eraseIdx]),
    viewMatrix_eraseIdx, viewMatrix_sequence]

theorem foldl_update {ι α : Type} [DecidableEq ι] (g : ι → α) (l : List ι) (v0 : ι → α) :
    l.foldl (fun v i => Function.update v i (g i)) v0 = fun j => if j ∈ l then g j else v0 j := by
  induction l generalizing v0 with
  | nil => simp
  | cons a l ih =>
    rw [List.foldl_cons, ih]
    funext j
    by_cases hj : j ∈ l
    · simp [hj]
    · by_cases hja : j = a
      · subst hja; simp [hj]
      · simp [hj, hja]

theorem forEachIndex_update {α : Type} (N : Nat) (g v0 : Fin N → α) :
    forEachIndex N (fun i v => Function.update v i (g i)) v0 = g := by
  unfold forEachIndex
  rw [foldl_update]
  funext j
  simp [List.mem_finRange]

theorem forEachIndex_sum {T : Type} [CommRing T] (N : Nat) (f : Fin N → T) :
    forEachIndex N (fun i e => e + f i) 0 = ∑ i, f i := by
  unfold forEachIndex
  rw [Fin.sum_univ_def, List.sum_eq_foldl, List.foldl_map]

theorem foldl_assign_row {T : Type} {COLUMNS ROWS : Nat} (r : Fin ROWS) (g : Fin COLUMNS → T)
    (l : List (Fin COLUMNS)) (m : GenericMatrix T COLUMNS ROWS) :
    l.foldl (fun acc c => GenericMatrix.assign acc r c (g c)) m =
      Function.update m r (l.foldl (fun v c => Function.update v c (g c)) (m r)) := by
  induction l generalizing m with
  | nil => simp
  | cons a l ih =>
    rw [List.foldl_cons, ih, List.foldl_cons]
    simp [GenericMatrix.assign]

theorem forEachIndex_assign_row {T : Type} {COLUMNS ROWS : Nat} (r : Fin ROWS)
    (g : Fin COLUMNS → T) (m : GenericMatrix T COLUMNS ROWS) :
    forEachIndex COLUMNS (fun c acc => GenericMatrix.assign acc r c (g c)) m =
      Function.update m r g := by
  have h := forEachIndex_update COLUMNS g (m r)
  unfold forEachIndex at h ⊢
  rw [foldl_assign_row, h]

theorem forEachIndex_some {σ : Type} (N : Nat) (body : Fin N → Option σ → Option σ)
    (step : Fin N → σ → σ) (h : ∀ i s, body i (some s) = some (step i s)) (s : σ) :
    forEachIndex N body (some s) = some (forEachIndex N step s) := by
  unfold forEachIndex
  generalize List.finRange N = l
  induction l generalizing s with
  | nil => rfl
  | cons a l ih => rw [List.foldl_cons, List.foldl_cons, h, ih]

theorem GenericVector.mulMatrix_apply {T : Type} [CommRing T] {N COLUMNS ROWS : Nat} (hN : N ≤ ROWS)
    (result : GenericVector T COLUMNS) (lhs : GenericVector T N)
    (rhs : GenericMatrix T COLUMNS ROWS) (c : Fin COLUMNS) :
    GenericVector.mulMatrix hN result lhs rhs c = ∑ r : Fin N, lhs r * rhs (Fin.castLE hN r) c := by
  unfold GenericVector.mulMatrix GenericVector.forEachElement
  rw [forEachIndex_update]
  exact forEachIndex_sum N _

theorem GenericMatrix.mul_apply {T : Type} [CommRing T] {N COLUMNS ROWS : Nat}
    (result : GenericMatrix T COLUMNS ROWS) (rowResult : Fin ROWS → GenericVector T COLUMNS)
    (lhs : GenericMatrix T N ROWS) (rhs : GenericMatrix T COLUMNS N) (r : Fin ROWS) (c : Fin COLUMNS) :
    GenericMatrix.mul result rowResult lhs rhs r c = ∑ k : Fin N, lhs r k * rhs k c := by
  unfold GenericMatrix.mul GenericMatrix.forEachRow
  rw [forEachIndex_update, GenericVector.mulMatrix_apply]
  simp

theorem GenericMatrix.mul_eq_matrix_mul {T : Type} [CommRing T] {N COLUMNS ROWS : Nat}
    (result : GenericMatrix T COLUMNS ROWS) (rowResult : Fin ROWS → GenericVector T COLUMNS)
    (lhs : GenericMatrix T N ROWS) (rhs : GenericMatrix T COLUMNS N) :
    Matrix.of (GenericMatrix.mul result rowResult lhs rhs) = Matrix.of lhs * Matrix.of rhs := by
  ext r c
  simp [GenericMatrix.mul_apply, Matrix.mul_apply]

theorem GenericMatrix.eq_true_iff {T : Type} [DecidableEq T] {COLUMNS ROWS : Nat}
    (lhs rhs : GenericMatrix T COLUMNS ROWS) : GenericMatrix.eq lhs rhs = true ↔ lhs = rhs := by
  unfold GenericMatrix.eq
  simp only [List.all_eq_true, List.mem_finRange, true_implies, decide_eq_true_eq]
  constructor
  · intro h; funext r c; exact h r c
  · intro h r c; rw [h]

theorem GenericVector.eq_true_iff_vec {T : Type} [DecidableEq T] {N : Nat}
    (lhs rhs : GenericVector T N) : GenericVector.eq lhs rhs = true ↔ lhs = rhs := by
  unfold GenericVector.eq
  simp only [List.all_eq_true, List.mem_finRange, true_implies, decide_eq_true_eq]
  constructor
  · intro h; funext r; exact h r
  · intro h r; rw [h]

theorem GenericMatrix.assign_apply {T : Type} {COLUMNS ROWS : Nat} (m : GenericMatrix T COLUMNS ROWS)
    (a : Fin ROWS) (b : Fin COLUMNS) (x : T) (r : Fin ROWS) (c : Fin COLUMNS) :
    GenericMatrix.assign m a b x r c = if r = a ∧ c = b then x else m r c := by
  unfold GenericMatrix.assign
  by_cases hr : r = a
  · subst hr
    by_cases hc : c = b
    · subst hc; simp
    · simp [hc]
  · simp [hr]

theorem foldl_assign_const {ι T : Type} {COLUMNS ROWS : Nat} (a : ι → Fin ROWS) (b : ι → Fin COLUMNS)
    (x : T) (l : List ι) (m0 : GenericMatrix T COLUMNS ROWS) (r : Fin ROWS) (c : Fin COLUMNS) :
    l.foldl (fun m i => GenericMatrix.assign m (a i) (b i) x) m0 r c =
      if ∃ i ∈ l, r = a i ∧ c = b i then x else m0 r c := by
  induction l generalizing m0 with
  | nil => simp
  | cons i l ih =>
    rw [List.foldl_cons, ih, GenericMatrix.assign_apply]
    by_cases h1 : ∃ j ∈ l, r = a j ∧ c = b j
    · have h2 : ∃ j ∈ i :: l, r = a j ∧ c = b j := by
        obtain ⟨j, hj, hj2⟩ := h1
        exact ⟨j, List.mem_cons_of_mem _ hj, hj2⟩
      rw [if_pos h1, if_pos h2]
    · rw [if_neg h1]
      by_cases h3 : r = a i ∧ c = b i
      · have h2 : ∃ j ∈ i :: l, r = a j ∧ c = b j := ⟨i, List.mem_cons_self _ _, h3⟩
        rw [if_pos h3, if_pos h2]
      · have h2 : ¬ ∃ j ∈ i :: l, r = a j ∧ c = b j := by
          rintro ⟨j, hj, hj2⟩
          rcases List.mem_cons.1 hj with rfl | hj'
          · exact h3 hj2
          · exact h1 ⟨j, hj', hj2⟩
        rw [if_neg h3, if_neg h2]

theorem GenericMatrix.identity_apply (T : Type) [CommRing T] (COLUMNS ROWS : Nat) (r : Fin ROWS)
    (c : Fin COLUMNS) :
    GenericMatrix.identity T COLUMNS ROWS r c = if r.1 = c.1 then 1 else 0 := by
  unfold GenericMatrix.identity forEachIndex
  rw [foldl_assign_const (fun i : Fin (min ROWS COLUMNS) => (⟨i.1, lt_of_lt_of_le i.2 (min_le_left _ _)⟩ : Fin ROWS))
    (fun i : Fin (min ROWS COLUMNS) => (⟨i.1, lt_of_lt_of_le i.2 (min_le_right _ _)⟩ : Fin COLUMNS))]
  by_cases h : r.1 = c.1
  · rw [if_pos h, if_pos]
    · rfl
    · refine ⟨⟨r.1, lt_min r.2 (h ▸ c.2)⟩, List.mem_finRange _, Fin.ext rfl, Fin.ext h.symm⟩
  · rw [if_neg h, if_neg]
    · rfl
    · rintro ⟨i, _, h1, h2⟩
      apply h
      rw [h1, h2]

theorem GenericMatrix.identity_eq_one (T : Type) [CommRing T] (N : Nat) :
    Matrix.of (GenericMatrix.identity T N N) = (1 : Matrix (Fin N) (Fin N) T) := by
  ext r c
  simp [GenericMatrix.identity_apply, Matrix.one_apply, Fin.ext_iff]

theorem GenericMatrix.minor_determinant {T : Type} [CommRing T] {n : Nat}
    (M : GenericMatrix T (n + 2) (n + 2)) (i j : Fin (n + 2)) :
    GenericMatrix.determinant (GenericMatrix.minor M i j) =
      some (Matrix.det ((Matrix.of M).submatrix i.succAbove j.succAbove)) := by
  rw [GenericMatrix.determinant_eq_det]
  rfl

theorem GenericMatrix.mul_eq_identity_iff {T : Type} [CommRing T] [DecidableEq T] {N : Nat}
    (result : GenericMatrix T N N) (rowResult : Fin N → GenericVector T N)
    (A B : GenericMatrix T N N) :
    GenericMatrix.eq (GenericMatrix.mul result rowResult A B) (GenericMatrix.identity T N N) = true ↔
      Matrix.of A * Matrix.of B = 1 := by
  rw [GenericMatrix.eq_true_iff, ← GenericMatrix.identity_eq_one, ← GenericMatrix.mul_eq_matrix_mul result rowResult]
  exact ⟨fun h => congrArg _ h, fun h => Matrix.of.injective h⟩

theorem GenericSubMatrix.detTerm_congr {T : Type} [CommRing T] {COLUMNS ROWS : Nat}
    (f g : GenericSubMatrix T COLUMNS ROWS → Option T) (v : GenericSubMatrix T COLUMNS ROWS)
    (h : ∀ i sub, v.subMatrix 0 i = some sub → f sub = g sub) (I : Nat) :
    GenericSubMatrix.detTerm f v I = GenericSubMatrix.detTerm g v I := by
  unfold GenericSubMatrix.detTerm
  cases hg : v.get 0 I with
  | none => rfl
  | some d =>
    cases hs : v.subMatrix 0 I with
    | none => rfl
    | some sub => simp [h I sub hs]

theorem GenericSubMatrix.det_congr {T : Type} [CommRing T] {COLUMNS ROWS : Nat}
    (f g : GenericSubMatrix T COLUMNS ROWS → Option T) (v : GenericSubMatrix T COLUMNS ROWS)
    (h : ∀ i sub, v.subMatrix 0 i = some sub → f sub = g sub) (I : Nat) :
    GenericSubMatrix.det f v I = GenericSubMatrix.det g v I := by
  induction I with
  | zero => simp only [GenericSubMatrix.det, GenericSubMatrix.detTerm_congr f g v h]
  | succ J ih => simp only [GenericSubMatrix.det, GenericSubMatrix.detTerm_congr f g v h, ih]

theorem GenericSubMatrix.subMatrix_dimension {T : Type} {COLUMNS ROWS : Nat}
    (v sub : GenericSubMatrix T COLUMNS ROWS) (r c : Nat) (h : v.subMatrix r c = some sub) :
    sub.dimension + 1 = v.dimension := by
  unfold GenericSubMatrix.subMatrix at h
  simp only [ConstexprListErase_eq, Option.bind_eq_bind, Option.pure_def] at h
  by_cases hr : r < v.RowList.length
  · by_cases hc : c < v.ColumnList.length
    · simp only [hr, hc, if_true, Option.some_bind, Option.some.injEq] at h
      subst h
      simp only [GenericSubMatrix.dimension, List.length_eraseIdx, hr, hc, if_true]
      omega
    · simp [hr, hc] at h
  · simp [hr] at h

/-- The bound on the nesting depth in `GenericSubMatrix.determinant` is never reached: any
larger bound gives the same result. -/
theorem GenericSubMatrix.determinantAux_depth {T : Type} [CommRing T] {COLUMNS ROWS : Nat}
    (d : Nat) : ∀ (v : GenericSubMatrix T COLUMNS ROWS) (k : Nat), v.dimension = d → d + 1 ≤ k →
      GenericSubMatrix.determinantAux k v = v.determinant := by
  induction d with
  | zero =>
    intro v k hv hk
    obtain ⟨k', rfl⟩ : ∃ k', k = k' + 1 := ⟨k - 1, by omega⟩
    unfold GenericSubMatrix.determinant
    rw [hv, GenericSubMatrix.determinantAux, GenericSubMatrix.determinantAux]
    congr 1
    apply GenericSubMatrix.det_congr
    intro i sub hs
    have := GenericSubMatrix.subMatrix_dimension v sub 0 i hs
    omega
  | succ d ih =>
    intro v k hv hk
    obtain ⟨k', rfl⟩ : ∃ k', k = k' + 1 := ⟨k - 1, by omega⟩
    unfold GenericSubMatrix.determinant
    rw [hv, GenericSubMatrix.determinantAux, GenericSubMatrix.determinantAux]
    congr 1
    apply GenericSubMatrix.det_congr
    intro i sub hs
    have hdim := GenericSubMatrix.subMatrix_dimension v sub 0 i hs
    have hsd : sub.dimension = d := by omega
    rw [ih sub k' hsd (by omega), ih sub (d + 1) hsd (by omega)]

theorem sum_extend {T : Type} [CommRing T] {N ROWS : Nat} (hN : N ≤ ROWS) (v : GenericVector T N)
    (f : Fin ROWS → T) :
    ∑ r : Fin ROWS, GenericVector.extend v ROWS r * f r = ∑ r : Fin N, v r * f (Fin.castLE hN r) := by
  let F : Nat → T := fun i => if h : i < ROWS then GenericVector.get v i * f ⟨i, h⟩ else 0
  have h1 : ∑ r : Fin ROWS, GenericVector.extend v ROWS r * f r = ∑ i ∈ Finset.range ROWS, F i := by
    rw [Finset.sum_range]
    apply Finset.sum_congr rfl
    intro r _
    simp [F, GenericVector.extend]
  have h2 : ∑ r : Fin N, v r * f (Fin.castLE hN r) = ∑ i ∈ Finset.range N, F i := by
    rw [Finset.sum_range]
    apply Finset.sum_congr rfl
    intro r _
    have : r.1 < ROWS := lt_of_lt_of_le r.2 hN
    simp [F, GenericVector.get, this, Fin.castLE]
  rw [h1, h2]
  symm
  apply Finset.sum_subset
  · intro i hi
    simp only [Finset.mem_range] at hi ⊢
    omega
  · intro i hi hi2
    simp only [Finset.mem_range] at hi hi2
    simp [F, GenericVector.get, hi, hi2, ZERO_VALUE]

theorem ConstexprListHeadImpl_eq {α : Type} (End : Nat) (Head IL : List α) :
    ConstexprListHeadImpl End Head IL =
      if End ≤ IL.length then some (Head ++ IL.take End) else none := by
  induction End generalizing Head IL with
  | zero => simp [ConstexprListHeadImpl]
  | succ E ih =>
    cases IL with
    | nil => simp [ConstexprListHeadImpl]
    | cons V Tail => simp [ConstexprListHeadImpl, ih]

theorem ConstexprListTailImpl_eq {α : Type} (Begin : Nat) (Head IL : List α) :
    ConstexprListTailImpl Begin Head IL =
      if Begin ≤ IL.length then some (IL.drop Begin) else none := by
  induction Begin generalizing Head IL with
  | zero => simp [ConstexprListTailImpl]
  | succ E ih =>
    cases IL with
    | nil => simp [ConstexprListTailImpl]
    | cons V Tail => simp [ConstexprListTailImpl, ih]

theorem ConstexprListHead_eq {α : Type} (End : Nat) (IL : List α) :
    ConstexprListHead End IL = if End ≤ IL.length then some (IL.take End) else none := by
  simp [ConstexprListHead, ConstexprListHeadImpl_eq]

theorem ConstexprListTail_eq {α : Type} (Begin : Nat) (IL : List α) :
    ConstexprListTail Begin IL = if Begin ≤ IL.length then some (IL.drop Begin) else none := by
  simp [ConstexprListTail, ConstexprListTailImpl_eq]

theorem ConstexprListSequence_eq_range (N : Nat) : ConstexprListSequence N 0 = List.range N := by
  rw [ConstexprListSequence_eq, List.range_eq_range']

theorem getElem_range_eq_some (N m j : Nat) : (List.range N)[m]? = some j ↔ m < N ∧ j = m := by
  by_cases h : m < N
  · rw [List.getElem?_range h]
    simp [h, eq_comm]
  · rw [List.getElem?_eq_none (by simpa using h)]
    simp [h]

theorem mem_eraseIdx_range (N i j : Nat) :
    j ∈ (List.range N).eraseIdx i ↔ j < N ∧ j ≠ i := by
  rw [List.mem_iff_getElem?]
  constructor
  · rintro ⟨k, hk⟩
    rw [List.getElem?_eraseIdx] at hk
    by_cases hki : k < i
    · rw [if_pos hki, getElem_range_eq_some] at hk
      omega
    · rw [if_neg hki, getElem_range_eq_some] at hk
      omega
  · rintro ⟨hj, hji⟩
    by_cases h : j < i
    · refine ⟨j, ?_⟩
      rw [List.getElem?_eraseIdx, if_pos h, getElem_range_eq_some]
      exact ⟨hj, rfl⟩
    · refine ⟨j - 1, ?_⟩
      have h2 : ¬ (j - 1 < i) := by omega
      rw [List.getElem?_eraseIdx, if_neg h2, getElem_range_eq_some]
      omega

theorem getElem_eraseIdx_skip {α : Type} (L : List α) (k i : Nat) :
    (L.eraseIdx k)[i]? = L[skipIndex k i]? := by
  rw [List.getElem?_eraseIdx, skipIndex]
  split <;> rfl

theorem GenericSubMatrix.get_eq_of_lt {T : Type} [CommRing T] {COLUMNS ROWS : Nat}
    (M : GenericMatrix T COLUMNS ROWS) (rows cols : List Nat) (r c : Nat)
    (hr : r < rows.length) (hc : c < cols.length) :
    GenericSubMatrix.get ⟨M, rows, cols⟩ r c =
      (rows[r]?).bind (fun R => (GenericMatrix.getRow M R).bind
        (fun row => (cols[c]?).map (fun C => GenericVector.get row C))) := by
  simp only [GenericSubMatrix.get, GenericSubMatrix.getRow, GenericSubVector.get, hr, hc,
    and_self, if_true, ConstexprListGet_eq_getElem, List.getElem?_eq_getElem,
    Option.bind_eq_bind, Option.some_bind, Option.pure_def, Option.map_some']
  cases GenericMatrix.getRow M rows[r] with
  | none => rfl
  | some row => simp [hc]

theorem skipIndex_lt (k i n : Nat) (hi : i < n) : skipIndex k i < n + 1 := by
  unfold skipIndex
  split <;> omega

theorem GenericSubMatrix.subMatrix_get {T : Type} [CommRing T] {COLUMNS ROWS : Nat}
    (v : GenericSubMatrix T COLUMNS ROWS) (ROW COLUMN : Nat)
    (hR : ROW < v.rows) (hC : COLUMN < v.columns) :
    ∃ w, v.subMatrix ROW COLUMN = some w ∧ w.rows + 1 = v.rows ∧ w.columns + 1 = v.columns ∧
      ∀ r c, w.get r c =
        if r < w.rows ∧ c < w.columns then v.get (skipIndex ROW r) (skipIndex COLUMN c)
        else if r = c then some IDENTITY_VALUE else some ZERO_VALUE := by
  obtain ⟨M, rows, cols⟩ := v
  simp only [GenericSubMatrix.rows, GenericSubMatrix.columns] at hR hC
  have hlr : (rows.eraseIdx ROW).length + 1 = rows.length := by
    rw [List.length_eraseIdx, if_pos hR]; omega
  have hlc : (cols.eraseIdx COLUMN).length + 1 = cols.length := by
    rw [List.length_eraseIdx, if_pos hC]; omega
  refine ⟨⟨M, rows.eraseIdx ROW, cols.eraseIdx COLUMN⟩,
    GenericSubMatrix.subMatrix_of_lt M rows cols ROW COLUMN hR hC, hlr, hlc, ?_⟩
  intro r c
  simp only [GenericSubMatrix.rows, GenericSubMatrix.columns]
  by_cases h : r < (rows.eraseIdx ROW).length ∧ c < (cols.eraseIdx COLUMN).length
  · rw [if_pos h, GenericSubMatrix.get_eq_of_lt M _ _ r c h.1 h.2,
      GenericSubMatrix.get_eq_of_lt M rows cols _ _
        (by rw [← hlr]; exact skipIndex_lt _ _ _ h.1)
        (by rw [← hlc]; exact skipIndex_lt _ _ _ h.2),
      getElem_eraseIdx_skip, getElem_eraseIdx_skip]
  · rw [if_neg h]
    simp only [GenericSubMatrix.get, if_neg h]

theorem GenericMatrix.subMatrix_eq_view {T : Type} {COLUMNS ROWS : Nat}
    (M : GenericMatrix T COLUMNS ROWS) (ROW COLUMN : Nat) :
    GenericMatrix.subMatrix M ROW COLUMN = (GenericMatrix.view M).subMatrix ROW COLUMN := rfl

theorem GenericMatrix.view_get {T : Type} [CommRing T] {COLUMNS ROWS : Nat}
    (M : GenericMatrix T COLUMNS ROWS) (r c : Nat) :
    (GenericMatrix.view M).get r c = some (GenericMatrix.get M r c) := by
  unfold GenericMatrix.view
  simp only [ConstexprListSequence_eq]
  by_cases h : r < ROWS ∧ c < COLUMNS
  · rw [GenericSubMatrix.get_eq_of_lt M _ _ r c (by simpa using h.1) (by simpa using h.2)]
    simp [List.getElem?_range', h.1, h.2, GenericMatrix.getRow, GenericMatrix.get]
  · simp only [GenericSubMatrix.get, GenericMatrix.get, List.length_range', h, if_false,
      dif_neg, not_false_eq_true]
    split <;> rfl

theorem GenericVector.mulMatrix_eq_vecMul {T : Type} [CommRing T] {N COLUMNS : Nat}
    (result : GenericVector T COLUMNS) (v : GenericVector T N) (M : GenericMatrix T COLUMNS N) :
    GenericVector.mulMatrix (le_refl N) result v M = Matrix.vecMul v (Matrix.of M) := by
  funext c
  rw [GenericVector.mulMatrix_apply]
  simp [Matrix.vecMul, Matrix.dotProduct]

theorem GenericVector.mulMatrix_assoc {T : Type} [CommRing T] {K N C : Nat}
    (v : GenericVector T K) (A : GenericMatrix T N K) (B : GenericMatrix T C N)
    (r1 r4 : GenericVector T C) (r2 : GenericVector T N) (r3 : GenericMatrix T C K)
    (rr3 : Fin K → GenericVector T C) :
    GenericVector.mulMatrix (le_refl N) r1 (GenericVector.mulMatrix (le_refl K) r2 v A) B =
      GenericVector.mulMatrix (le_refl K) r4 v (GenericMatrix.mul r3 rr3 A B) := by
  rw [GenericVector.mulMatrix_eq_vecMul, GenericVector.mulMatrix_eq_vecMul,
    GenericVector.mulMatrix_eq_vecMul, GenericMatrix.mul_eq_matrix_mul, Matrix.vecMul_vecMul]

theorem eraseMany_sublist {α : Type} (is : List Nat) :
    ∀ (IL L : List α), eraseMany is IL = some L → L.Sublist IL := by
  induction is with
  | nil =>
    intro IL L h
    simp only [eraseMany, Option.some.injEq] at h
    rw [h]
  | cons I rest ih =>
    intro IL L h
    simp only [eraseMany, ConstexprListErase_eq] at h
    by_cases hI : I < IL.length
    · rw [if_pos hI, Option.some_bind] at h
      exact (ih _ _ h).trans (List.eraseIdx_sublist _ _)
    · rw [if_neg hI] at h
      simp at h

theorem subMatrixMany_lists {T : Type} {COLUMNS ROWS : Nat} (ps : List (Nat × Nat)) :
    ∀ (v w : GenericSubMatrix T COLUMNS ROWS), subMatrixMany ps v = some w →
      w.m_matrix = v.m_matrix ∧ eraseMany (ps.map Prod.fst) v.RowList = some w.RowList ∧
      eraseMany (ps.map Prod.snd) v.ColumnList = some w.ColumnList := by
  induction ps with
  | nil =>
    intro v w h
    simp only [subMatrixMany, Option.some.injEq] at h
    subst h
    exact ⟨rfl, rfl, rfl⟩
  | cons p rest ih =>
    intro v w h
    simp only [subMatrixMany] at h
    cases hs : v.subMatrix p.1 p.2 with
    | none => rw [hs] at h; simp at h
    | some u =>
      rw [hs, Option.some_bind] at h
      obtain ⟨h1, h2, h3⟩ := ih u w h
      unfold GenericSubMatrix.subMatrix at hs
      cases hr : ConstexprListErase p.1 v.RowList with
      | none => rw [hr] at hs; simp at hs
      | some rl =>
        cases hc : ConstexprListErase p.2 v.ColumnList with
        | none => rw [hr, hc] at hs; simp at hs
        | some cl =>
          rw [hr, hc] at hs
          simp only [Option.bind_eq_bind, Option.some_bind, Option.pure_def,
            Option.some.injEq] at hs
          subst hs
          refine ⟨h1, ?_, ?_⟩
          · simp only [List.map_cons, eraseMany, hr, Option.some_bind]
            exact h2
          · simp only [List.map_cons, eraseMany, hc, Option.some_bind]
            exact h3

theorem sublist_range_facts (N : Nat) (L : List Nat) (h : L.Sublist (List.range N)) :
    L.Pairwise (fun a b => a < b) ∧ (∀ x ∈ L, x < N) ∧ L.Nodup :=
  ⟨(List.pairwise_lt_range N).sublist h, fun _ hx => List.mem_range.1 (h.subset hx),
    (List.nodup_range N).sublist h⟩

theorem getElem_strictMono (L : List Nat) (h : L.Pairwise (fun a b => a < b)) (i j : Nat)
    (hi : i < L.length) (hj : j < L.length) (hij : i < j) : L.getD i 0 < L.getD j 0 := by
  rw [List.getD_eq_getElem _ _ hi, List.getD_eq_getElem _ _ hj]
  exact List.pairwise_iff_getElem.1 h i j hi hj hij

theorem GenericMatrix.entry_of_lt {T : Type} [CommRing T] {COLUMNS ROWS : Nat}
    (M : GenericMatrix T COLUMNS ROWS) (R C : Nat) (hR : R < ROWS) (hC : C < COLUMNS) :
    GenericMatrix.entry M R C = M ⟨R, hR⟩ ⟨C, hC⟩ := by
  simp [GenericMatrix.entry, GenericVector.get, hR, hC]

theorem forEachIndex_fixed {σ : Type} (N : Nat) (body : Fin N → σ → σ) (s : σ)
    (h : ∀ i, body i s = s) : forEachIndex N body s = s := by
  unfold forEachIndex
  generalize List.finRange N = l
  induction l with
  | nil => rfl
  | cons a l ih => rw [List.foldl_cons, h, ih]

theorem GenericMatrix.invertInstantiates_square {T : Type} [CommRing T] {n : Nat}
    (M : GenericMatrix T (n + 2) (n + 2)) : GenericMatrix.invertInstantiates M = true := by
  unfold GenericMatrix.invertInstantiates GenericMatrix.forEach GenericMatrix.forEachRow
    GenericVector.forEachElement
  apply forEachIndex_fixed
  intro row
  apply forEachIndex_fixed
  intro col
  show (true && ((GenericMatrix.subMatrix M col.1 row.1).bind
    GenericSubMatrix.determinant).isSome) = true
  rw [GenericMatrix.subMatrix_determinant_eq_det M col row]
  rfl

theorem signed_eq_pow {T : Type} [CommRing T] (k : Nat) (c : T) :
    (if k % 2 ≠ 0 then -c else c) = (-1) ^ k * c := by
  rcases Nat.even_or_odd k with he | ho
  · have : k % 2 = 0 := Nat.even_iff.1 he
    simp [this, he.neg_one_pow]
  · have : k % 2 = 1 := Nat.odd_iff.1 ho
    simp [this, ho.neg_one_pow]

theorem GenericMatrix.invertInto_some {T : Type} [CommRing T] {COLUMNS ROWS : Nat}
    (dv : T → T → Option T) (M out : GenericMatrix T COLUMNS ROWS) (det : T)
    (minor q : Fin ROWS → Fin COLUMNS → T)
    (h : ∀ row col, (GenericMatrix.subMatrix M col.1 row.1).bind GenericSubMatrix.determinant =
      some (minor row col))
    (hq : ∀ row col, dv ((-1) ^ (row.1 + col.1) * minor row col) det = some (q row col)) :
    GenericMatrix.invertInto dv M (some out) det = some q := by
  unfold GenericMatrix.invertInto GenericMatrix.forEach GenericMatrix.forEachRow
    GenericVector.forEachElement
  rw [Option.getD_some, forEachIndex_some ROWS _ (fun row acc => Function.update acc row (q row))]
  · rw [forEachIndex_update]
  · intro row s
    rw [forEachIndex_some COLUMNS _ (fun col acc => GenericMatrix.assign acc row col (q row col))]
    · rw [forEachIndex_assign_row]
    · intro col s2
      have h1 := h row col
      cases hsub : GenericMatrix.subMatrix M col.1 row.1 with
      | none => rw [hsub] at h1; simp at h1
      | some sub =>
        rw [hsub] at h1
        simp only [Option.some_bind] at h1
        have hq2 := hq row col
        rw [← signed_eq_pow] at hq2
        simp only [Option.isNone_some, Bool.false_eq_true, if_false, Option.bind_eq_bind,
          Option.some_bind, hsub, h1, hq2, Option.pure_def]

theorem GenericMatrix.two_sided_of_exact {T : Type} [CommRing T] {n : Nat}
    (M q : GenericMatrix T (n + 2) (n + 2)) (hu : IsUnit (Matrix.det (Matrix.of M)))
    (hq : ∀ row col : Fin (n + 2), q row col * Matrix.det (Matrix.of M) =
      (-1) ^ (row.1 + col.1) * Matrix.det ((Matrix.of M).submatrix col.succAbove row.succAbove)) :
    Matrix.of q * Matrix.of M = 1 ∧ Matrix.of M * Matrix.of q = 1 := by
  have hs : Matrix.det (Matrix.of M) • Matrix.of q = Matrix.adjugate (Matrix.of M) := by
    ext r c
    rw [Matrix.smul_apply, Matrix.of_apply, smul_eq_mul, mul_comm, hq,
      Matrix.adjugate_fin_succ_eq_det_submatrix, add_comm]
  obtain ⟨u, hud⟩ := hu.exists_left_inv
  set A := Matrix.of M
  set B := Matrix.of q
  constructor
  · have h1 : A.det • (B * A) = A.det • (1 : Matrix (Fin (n + 2)) (Fin (n + 2)) T) := by
      rw [← Matrix.smul_mul, hs, Matrix.adjugate_mul]
    have h2 := congrArg (fun X => u • X) h1
    simpa [smul_smul, hud] using h2
  · have h1 : A.det • (A * B) = A.det • (1 : Matrix (Fin (n + 2)) (Fin (n + 2)) T) := by
      rw [← Matrix.mul_smul, hs, Matrix.mul_adjugate]
    have h2 := congrArg (fun X => u • X) h1
    simpa [smul_smul, hud] using h2

/-- The result of `invert()` for a matrix with a unit determinant each of whose cofactor
quotients is defined and exact. -/
theorem GenericMatrix.invert_exact {T : Type} [CommRing T] [DecidableEq T] {n : Nat}
    (dv : T → T → Option T) (M out : GenericMatrix T (n + 2) (n + 2))
    (hne : Matrix.det (Matrix.of M) ≠ 0) (hu : IsUnit (Matrix.det (Matrix.of M)))
    (hex : ∀ (row col : Fin (n + 2)), ∃ q,
      dv ((-1) ^ (row.1 + col.1) *
        Matrix.det ((Matrix.of M).submatrix col.succAbove row.succAbove))
        (Matrix.det (Matrix.of M)) = some q ∧
      q * Matrix.det (Matrix.of M) = (-1) ^ (row.1 + col.1) *
        Matrix.det ((Matrix.of M).submatrix col.succAbove row.succAbove)) :
    ∃ inv, GenericMatrix.invert dv M out = some inv ∧
      Matrix.of inv * Matrix.of M = 1 ∧ Matrix.of M * Matrix.of inv = 1 := by
  choose q hq1 hq2 using hex
  refine ⟨q, ?_, GenericMatrix.two_sided_of_exact M q hu hq2⟩
  have hne2 : Matrix.det (Matrix.of M) ≠ ZERO_VALUE := hne
  simp only [GenericMatrix.invert, GenericMatrix.determinant_eq_det, Option.bind_eq_bind,
    Option.some_bind, if_neg hne2]
  exact GenericMatrix.invertInto_some dv M out _ _ q
    (fun row col => GenericMatrix.subMatrix_determinant_eq_det M col row) hq1

theorem CInt.cast_toInt (x : CInt) : ((x.toInt : Int) : CInt) = x := by
  unfold CInt.toInt
  split
  · simp
  · have h : ((2 : Int) ^ 32 : CInt) = 0 := by decide
    push_cast
    simp
    exact_mod_cast h

theorem CInt.div_one (x : CInt) : CInt.div x 1 = some x := by
  unfold CInt.div
  have h1 : (1 : CInt) ≠ 0 := by decide
  have h2 : (1 : CInt) ≠ -1 := by decide
  have h3 : (1 : CInt).toInt = 1 := by decide
  rw [if_neg h1, if_neg (fun h => h2 h.2), h3, Int.tdiv_one, CInt.cast_toInt]

theorem CInt.div_neg_one (x : CInt) (hx : x ≠ INT_MIN) : CInt.div x (-1) = some (-x) := by
  unfold CInt.div
  have h1 : (-1 : CInt) ≠ 0 := by decide
  have h3 : (-1 : CInt).toInt = -1 := by decide
  rw [if_neg h1, if_neg (fun h => hx h.1), h3, Int.tdiv_neg, Int.tdiv_one]
  push_cast
  rw [CInt.cast_toInt]

/-! ## The claims -/

/-- C1, as amended: for every N ≥ 2 and every N×N matrix `M` whose `determinant()` is
non-zero and a unit of the element type, and for which each quotient of a signed cofactor
by `determinant()` that `invert()` computes is defined and exact (the quotient times
`determinant()` is the cofactor), `invert()` returns a matrix `inv` with
`inv * M == identity()` and `M * inv == identity()`. -/
theorem C1_invert_two_sided_unit {T : Type} [CommRing T] [DecidableEq T] (dv : T → T → Option T)
    (n : Nat) (M out result1 result2 : GenericMatrix T (n + 2) (n + 2))
    (rowResult1 rowResult2 : Fin (n + 2) → GenericVector T (n + 2)) (det : T)
    (hdet : GenericMatrix.determinant M = some det) (hne : det ≠ ZERO_VALUE) (hu : IsUnit det)
    (hex : ∀ (row col : Fin (n + 2)) (c : T),
      (GenericMatrix.subMatrix M col.1 row.1).bind GenericSubMatrix.determinant = some c →
      ∃ q, dv (if (row.1 + col.1) % 2 ≠ 0 then -c else c) det = some q ∧
        q * det = (if (row.1 + col.1) % 2 ≠ 0 then -c else c)) :
    ∃ inv, GenericMatrix.invert dv M out = some inv ∧
      GenericMatrix.eq (GenericMatrix.mul result1 rowResult1 inv M)
        (GenericMatrix.identity T (n + 2) (n + 2)) = true ∧
      GenericMatrix.eq (GenericMatrix.mul result2 rowResult2 M inv)
        (GenericMatrix.identity T (n + 2) (n + 2)) = true := by
  have hd : det = Matrix.det (Matrix.of M) := by
    have := GenericMatrix.determinant_eq_det M
    rw [hdet] at this
    exact Option.some.inj this
  subst hd
  have hex2 : ∀ (row col : Fin (n + 2)), ∃ q,
      dv ((-1) ^ (row.1 + col.1) *
        Matrix.det ((Matrix.of M).submatrix col.succAbove row.succAbove))
        (Matrix.det (Matrix.of M)) = some q ∧
      q * Matrix.det (Matrix.of M) = (-1) ^ (row.1 + col.1) *
        Matrix.det ((Matrix.of M).submatrix col.succAbove row.succAbove) := by
    intro row col
    have h := hex row col _ (GenericMatrix.subMatrix_determinant_eq_det M col row)
    rw [signed_eq_pow] at h
    exact h
  obtain ⟨inv, h1, h2, h3⟩ := GenericMatrix.invert_exact dv M out hne hu hex2
  exact ⟨inv, h1, (GenericMatrix.mul_eq_identity_iff _ _ _ _).2 h2,
    (GenericMatrix.mul_eq_identity_iff _ _ _ _).2 h3⟩

/-- C1, witness: the CCW rotation over `int`, whose determinant is 1. -/
theorem C1_witness :
    GenericMatrix.determinant (GenericMatrix.toCInt s_ccw) = some 1 ∧
    ∃ inv, GenericMatrix.invert CInt.div (GenericMatrix.toCInt s_ccw) (fun _ _ => 0) = some inv ∧
      GenericMatrix.eq
        (GenericMatrix.mul (fun _ _ => 0) (fun _ _ => 0) inv (GenericMatrix.toCInt s_ccw))
        (GenericMatrix.identity CInt 2 2) = true ∧
      GenericMatrix.eq
        (GenericMatrix.mul (fun _ _ => 0) (fun _ _ => 0) (GenericMatrix.toCInt s_ccw) inv)
        (GenericMatrix.identity CInt 2 2) = true :=
  ⟨by decide,
    C1_invert_two_sided_unit CInt.div 0 (GenericMatrix.toCInt s_ccw) (fun _ _ => 0)
      (fun _ _ => 0) (fun _ _ => 0) (fun _ _ => 0) (fun _ _ => 0) 1 (by decide) (by decide)
      isUnit_one (fun _ _ _ _ => ⟨_, CInt.div_one _, mul_one _⟩)⟩

/-- C1, counterexample: over `int` the matrix [[2,0],[0,2]] has determinant 4, `invert()`
returns a matrix (every entry is a truncated quotient, here 0), and `invert() * M` is
not `identity()`. -/
theorem C1_counterexample :
    GenericMatrix.determinant (GenericMatrix.toCInt test_double) = some 4 ∧
    (GenericMatrix.invert CInt.div (GenericMatrix.toCInt test_double) (fun _ _ => 0)).map
      (fun inv => GenericMatrix.eq
        (GenericMatrix.mul (fun _ _ => 0) (fun _ _ => 0) inv (GenericMatrix.toCInt test_double))
        (GenericMatrix.identity CInt 2 2)) = some false := by
  decide

/-- C2: for N ≥ 2 the `determinant()` of an N×N matrix is the sum over the columns `i` of
(−1)^i · M[0][i] · d_i, where d_i is both the `determinant()` of the materialised minor
without row 0 and column `i` and the `determinant()` of the view `subMatrix<0, i>()`; for
N = 1 it is M[0][0]; for [[a,b],[c,d]] it is a·d − b·c; for [[1,−2],[2,3]] it is 7. -/
theorem C2_determinant_laplace {T : Type} [CommRing T] :
    (∀ (n : Nat) (M : GenericMatrix T (n + 2) (n + 2)), ∃ d : Fin (n + 2) → T,
      (∀ i, GenericMatrix.determinant (GenericMatrix.minor M 0 i) = some (d i)) ∧
      (∀ i : Fin (n + 2), ((GenericMatrix.view M).subMatrix 0 i.1).bind
        GenericSubMatrix.determinant = some (d i)) ∧
      GenericMatrix.determinant M = some (∑ i : Fin (n + 2), (-1) ^ i.1 * M 0 i * d i)) ∧
    (∀ M : GenericMatrix T 1 1, GenericMatrix.determinant M = some (M 0 0)) ∧
    (∀ a b c d : T,
      GenericMatrix.determinant (![![a, b], ![c, d]] : GenericMatrix T 2 2) = some (a * d - b * c)) ∧
    GenericMatrix.determinant test_m = some 7 := by
  refine ⟨?_, ?_, ?_, ?_⟩
  · intro n M
    refine ⟨fun i => Matrix.det ((Matrix.of M).submatrix (Fin.succAbove 0) i.succAbove), ?_, ?_, ?_⟩
    · intro i
      exact GenericMatrix.minor_determinant M 0 i
    · intro i
      exact GenericMatrix.subMatrix_determinant_eq_det M 0 i
    · rw [GenericMatrix.determinant_eq_det, Matrix.det_succ_row_zero]
      simp
  · intro M
    rw [GenericMatrix.determinant_eq_det, Matrix.det_fin_one]
    rfl
  · intro a b c d
    rw [GenericMatrix.determinant_eq_det, Matrix.det_fin_two]
    simp
  · decide

/-- C3, the code at a failing input: for the 1×1 matrix [0] over `int`, `determinant()` is
`ZERO_VALUE`, yet `invert(out)` does not return false: the member has no well-formed
instantiation, since `invert(out, det)` needs the determinant of a view without rows and
columns.  For the singular 2×2 matrix [[1,2],[2,4]] the same member returns false and
leaves `out` as it was, whether `out` is another matrix or the matrix itself. -/
theorem C3_failing_input :
    GenericMatrix.determinant (![![0]] : GenericMatrix CInt 1 1) = some ZERO_VALUE ∧
    (GenericMatrix.invertOut CInt.div (![![0]] : GenericMatrix CInt 1 1)
      (some ![![5]])).isNone = true ∧
    GenericMatrix.determinant (GenericMatrix.toCInt test_singular) = some ZERO_VALUE ∧
    (GenericMatrix.invertOut CInt.div (GenericMatrix.toCInt test_singular)
      (some (GenericMatrix.toCInt s_cw))).map
      (fun p => (p.1, GenericMatrix.eq p.2 (GenericMatrix.toCInt s_cw))) = some (false, true) ∧
    (GenericMatrix.invertOut CInt.div (GenericMatrix.toCInt test_singular) none).map
      (fun p => (p.1, GenericMatrix.eq p.2 (GenericMatrix.toCInt test_singular))) =
        some (false, true) := by
  decide

/-- C4, as amended: for N ≥ 2 and an N×N matrix `M` whose `determinant()` is not
`ZERO_VALUE`, when every quotient of a signed cofactor by `determinant()` is defined,
`invert()` returns, `invert(out)` with `out` a matrix other than `M` itself returns true and
writes the same matrix, and its entry [row][col] is (−1)^(row+col) times the
`determinant()` of the minor of `M` without row `col` and column `row`, divided by
`determinant()`. -/
theorem C4_invert_adjugate {T : Type} [CommRing T] [DecidableEq T] (dv : T → T → Option T)
    (n : Nat) (M out : GenericMatrix T (n + 2) (n + 2)) (det : T)
    (hdet : GenericMatrix.determinant M = some det) (hne : det ≠ ZERO_VALUE)
    (hdef : ∀ (row col : Fin (n + 2)) (d : T),
      GenericMatrix.determinant (GenericMatrix.minor M col row) = some d →
      (dv ((-1) ^ (row.1 + col.1) * d) det).isSome = true) :
    ∃ inv, GenericMatrix.invert dv M out = some inv ∧
      GenericMatrix.invertOut dv M (some out) = some (true, inv) ∧
      ∀ row col : Fin (n + 2), ∃ d,
        GenericMatrix.determinant (GenericMatrix.minor M col row) = some d ∧
        dv ((-1) ^ (row.1 + col.1) * d) det = some (inv row col) := by
  have hd : det = Matrix.det (Matrix.of M) := by
    have := GenericMatrix.determinant_eq_det M
    rw [hdet] at this
    exact Option.some.inj this
  subst hd
  have hex : ∀ (row col : Fin (n + 2)), ∃ q,
      dv ((-1) ^ (row.1 + col.1) *
        Matrix.det ((Matrix.of M).submatrix col.succAbove row.succAbove))
        (Matrix.det (Matrix.of M)) = some q := by
    intro row col
    exact Option.isSome_iff_exists.1 (hdef row col _ (GenericMatrix.minor_determinant M col row))
  choose q hq using hex
  have hinto := GenericMatrix.invertInto_some dv M out (Matrix.det (Matrix.of M)) _ q
    (fun row col => GenericMatrix.subMatrix_determinant_eq_det M col row) hq
  refine ⟨q, ?_, ?_, ?_⟩
  · simp only [GenericMatrix.invert, hdet, Option.bind_eq_bind, Option.some_bind, if_neg hne]
    exact hinto
  · simp only [GenericMatrix.invertOut, hdet, Option.bind_eq_bind, Option.some_bind,
      GenericMatrix.invertInstantiates_square, Bool.true_eq_false, if_false, if_neg hne, hinto,
      Option.pure_def]
  · intro row col
    exact ⟨_, GenericMatrix.minor_determinant M col row, hq row col⟩

/-- C4, witness: the 3×3 pivot matrix of the tests over `int`, whose determinant is 1. -/
theorem C4_witness :
    GenericMatrix.determinant (GenericMatrix.toCInt test_pivot) = some 1 ∧
    ∃ inv, GenericMatrix.invert CInt.div (GenericMatrix.toCInt test_pivot) (fun _ _ => 0) =
        some inv ∧
      GenericMatrix.invertOut CInt.div (GenericMatrix.toCInt test_pivot) (some (fun _ _ => 0)) =
        some (true, inv) ∧
      ∀ row col : Fin 3, ∃ d,
        GenericMatrix.determinant
          (GenericMatrix.minor (GenericMatrix.toCInt test_pivot) col row) = some d ∧
        CInt.div ((-1) ^ (row.1 + col.1) * d) 1 = some (inv row col) :=
  ⟨by decide,
    C4_invert_adjugate CInt.div 1 (GenericMatrix.toCInt test_pivot) (fun _ _ => 0) 1 (by decide)
      (by decide) (fun _ _ _ _ => by rw [CInt.div_one]; rfl)⟩

/-- C4, counterexample: for [[1,2],[3,5]] over `int`, with determinant −1, the call
`m.invert(m)` returns true and leaves 5 in entry [1][1], where the minor without row 1 and
column 1 has determinant 1 and the quotient 1 / −1 is −1: the entry [0][0] was overwritten
with −5 before it was read as that minor.  For [[INT_MIN,1],[1,0]], with determinant −1,
`invert()` produces no matrix: the quotient INT_MIN / −1 is not defined. -/
theorem C4_counterexample :
    GenericMatrix.determinant test_alias = some (-1) ∧
    (GenericMatrix.invertOut CInt.div test_alias none).map
      (fun p => (p.1, p.2 0 0, p.2 0 1, p.2 1 0, p.2 1 1)) = some (true, -5, 2, 3, 5) ∧
    GenericMatrix.determinant (GenericMatrix.minor test_alias 1 1) = some 1 ∧
    CInt.div ((-1) ^ (1 + 1) * 1) (-1) = some (-1) ∧
    (5 : CInt) ≠ -1 ∧
    GenericMatrix.determinant test_int_min = some (-1) ∧
    GenericMatrix.determinant (GenericMatrix.minor test_int_min 1 1) = some INT_MIN ∧
    CInt.div ((-1) ^ (1 + 1) * INT_MIN) (-1) = none ∧
    (GenericMatrix.invert CInt.div test_int_min (fun _ _ => 0)).isNone = true := by
  decide

/-- C6: for every N ≥ 1 the `determinant()` of the N×N `identity()` is `IDENTITY_VALUE`,
that is 1. -/
theorem C6_determinant_identity {T : Type} [CommRing T] (n : Nat) :
    GenericMatrix.determinant (GenericMatrix.identity T (n + 1) (n + 1)) = some IDENTITY_VALUE ∧
    (IDENTITY_VALUE : T) = 1 := by
  rw [GenericMatrix.determinant_eq_det, GenericMatrix.identity_eq_one, Matrix.det_one]
  exact ⟨rfl, rfl⟩

/-- C7: the product `A * B` of a matrix with R rows and N columns and a matrix with N rows
and C columns has as entry [r][c] the sum over `k` of A[r][k] · B[k][c]; the CCW rotation
times the CW rotation is `identity()`. -/
theorem C7_matrix_mul {T : Type} [CommRing T] :
    (∀ (N COLUMNS ROWS : Nat) (result : GenericMatrix T COLUMNS ROWS)
      (rowResult : Fin ROWS → GenericVector T COLUMNS) (A : GenericMatrix T N ROWS)
      (B : GenericMatrix T COLUMNS N) (r : Fin ROWS) (c : Fin COLUMNS),
      GenericMatrix.mul result rowResult A B r c = ∑ k : Fin N, A r k * B k c) ∧
    (∀ (result : GenericMatrix Int 2 2) (rowResult : Fin 2 → GenericVector Int 2),
      GenericMatrix.eq (GenericMatrix.mul result rowResult s_ccw s_cw)
        (GenericMatrix.identity Int 2 2) = true) := by
  constructor
  · intro N COLUMNS ROWS result rowResult A B r c
    exact GenericMatrix.mul_apply result rowResult A B r c
  · intro result rowResult
    rw [GenericMatrix.eq_true_iff]
    funext r c
    rw [GenericMatrix.mul_apply, GenericMatrix.identity_apply]
    fin_cases r <;> fin_cases c <;> simp [s_ccw, s_cw, Fin.sum_univ_two]

/-- C8: for a vector `v` of length N and a matrix `M` with ROWS ≥ N rows, entry `c` of
`v * M` is the sum over `r < N` of v[r] · M[r][c], and `v * M` is the product of `M` with
`v` extended by zeros to length ROWS. -/
theorem C8_vector_mul_matrix {T : Type} [CommRing T] {N COLUMNS ROWS : Nat} (hN : N ≤ ROWS)
    (result result2 : GenericVector T COLUMNS) (v : GenericVector T N)
    (M : GenericMatrix T COLUMNS ROWS) (c : Fin COLUMNS) :
    GenericVector.mulMatrix hN result v M c = ∑ r : Fin N, v r * M (Fin.castLE hN r) c ∧
    GenericVector.mulMatrix hN result v M c =
      GenericVector.mulMatrix (le_refl ROWS) result2 (GenericVector.extend v ROWS) M c := by
  constructor
  · exact GenericVector.mulMatrix_apply hN result v M c
  · rw [GenericVector.mulMatrix_apply, GenericVector.mulMatrix_apply]
    rw [← sum_extend hN v (fun r => M r c)]
    rfl

/-- C8, witness: (0,1) times the 3-row, 2-column matrix of the origin test is (−1,0), and
(1,0) times the CCW rotation is (0,1). -/
theorem C8_witness :
    (GenericVector.mulMatrix (Nat.le_succ 2) (fun _ => 0) (![0, 1] : GenericVector Int 2)
        test_ccw32 0 =
      ∑ r : Fin 2, (![0, 1] : GenericVector Int 2) r * test_ccw32 (Fin.castLE (Nat.le_succ 2) r) 0 ∧
    GenericVector.mulMatrix (Nat.le_succ 2) (fun _ => 0) (![0, 1] : GenericVector Int 2)
        test_ccw32 0 =
      GenericVector.mulMatrix (le_refl 3) (fun _ => 0)
        (GenericVector.extend (![0, 1] : GenericVector Int 2) 3) test_ccw32 0) ∧
    GenericVector.eq (GenericVector.mulMatrix (Nat.le_succ 2) (fun _ => 0)
      (![0, 1] : GenericVector Int 2) test_ccw32) ![-1, 0] = true ∧
    GenericVector.eq (GenericVector.mulMatrix (le_refl 2) (fun _ => 0)
      (![1, 0] : GenericVector Int 2) s_ccw) ![0, 1] = true :=
  ⟨C8_vector_mul_matrix (Nat.le_succ 2) (fun _ => 0) (fun _ => 0) ![0, 1] test_ccw32 0,
    by decide, by decide⟩

/-- C9: `get<R, C>()` is the stored element M[R][C] when R < ROWS and C < COLUMNS;
otherwise it is 1 if R = C and 0 if not. -/
theorem C9_get {T : Type} [CommRing T] {COLUMNS ROWS : Nat} (M : GenericMatrix T COLUMNS ROWS)
    (R C : Nat) :
    GenericMatrix.get M R C =
      if h : R < ROWS ∧ C < COLUMNS then M ⟨R, h.1⟩ ⟨C, h.2⟩
      else if R = C then 1 else 0 := by
  unfold GenericMatrix.get
  by_cases h : R < ROWS ∧ C < COLUMNS
  · simp [h, GenericVector.get]
  · simp only [dif_neg h]
    rfl

/-- C10: after `set<R, C>(v)` at a position inside the shape, `get<R, C>()` and M[R][C]
are `v`, and every other entry, read by index or by `get`, is what it was. -/
theorem C10_set_get {T : Type} [CommRing T] {COLUMNS ROWS : Nat} (M : GenericMatrix T COLUMNS ROWS)
    (R : Fin ROWS) (C : Fin COLUMNS) (v : T) :
    GenericMatrix.get (GenericMatrix.set M R.1 C.1 v) R.1 C.1 = v ∧
    GenericMatrix.set M R.1 C.1 v R C = v ∧
    (∀ (r : Fin ROWS) (c : Fin COLUMNS),
      GenericMatrix.set M R.1 C.1 v r c = if r = R ∧ c = C then v else M r c) ∧
    (∀ r c : Nat, GenericMatrix.get (GenericMatrix.set M R.1 C.1 v) r c =
      if r = R.1 ∧ c = C.1 then v else GenericMatrix.get M r c) := by
  have hset : ∀ (r : Fin ROWS) (c : Fin COLUMNS),
      GenericMatrix.set M R.1 C.1 v r c = if r = R ∧ c = C then v else M r c := by
    intro r c
    have h := GenericMatrix.assign_apply M R C v r c
    simpa [GenericMatrix.set, GenericVector.set, GenericMatrix.assign] using h
  have hget : ∀ r c : Nat, GenericMatrix.get (GenericMatrix.set M R.1 C.1 v) r c =
      if r = R.1 ∧ c = C.1 then v else GenericMatrix.get M r c := by
    intro r c
    by_cases h : r < ROWS ∧ c < COLUMNS
    · simp only [GenericMatrix.get, dif_pos h, GenericVector.get, dif_pos h.2, hset, Fin.ext_iff]
    · have h2 : ¬ (r = R.1 ∧ c = C.1) := by
        rintro ⟨rfl, rfl⟩
        exact h ⟨R.2, C.2⟩
      simp only [GenericMatrix.get, dif_neg h, if_neg h2]
  refine ⟨?_, ?_, hset, hget⟩
  · rw [hget]; simp
  · rw [hset]; simp

/-- C11: for a matrix `M` with R + 1 rows and C + 1 columns and a row and column inside
it, the view `M.subMatrix<ROW, COLUMN>()` has R rows and C columns; its `get<r, c>()` for
r < R and c < C is M[r'][c'], with r' = r if r < ROW and r + 1 otherwise, and likewise c';
outside that range it is 1 if r = c and 0 otherwise.  The same holds for `subMatrix`
applied to any view: one row and one column of that view are removed. -/
theorem C11_subMatrix_view {T : Type} [CommRing T] :
    (∀ (C R : Nat) (M : GenericMatrix T (C + 1) (R + 1)) (ROW : Fin (R + 1)) (COLUMN : Fin (C + 1)),
      ∃ V, GenericMatrix.subMatrix M ROW.1 COLUMN.1 = some V ∧ V.rows = R ∧ V.columns = C ∧
        (∀ (r : Fin R) (c : Fin C), V.get r.1 c.1 = some (M (ROW.succAbove r) (COLUMN.succAbove c)) ∧
          (ROW.succAbove r).1 = (if r.1 < ROW.1 then r.1 else r.1 + 1) ∧
          (COLUMN.succAbove c).1 = (if c.1 < COLUMN.1 then c.1 else c.1 + 1)) ∧
        (∀ r c : Nat, R ≤ r ∨ C ≤ c → V.get r c = some (if r = c then 1 else 0))) ∧
    (∀ (COLUMNS ROWS : Nat) (v : GenericSubMatrix T COLUMNS ROWS) (ROW COLUMN : Nat),
      ROW < v.rows → COLUMN < v.columns →
      ∃ w, v.subMatrix ROW COLUMN = some w ∧ w.rows + 1 = v.rows ∧ w.columns + 1 = v.columns ∧
        ∀ r c : Nat, w.get r c =
          if r < w.rows ∧ c < w.columns then
            v.get (if r < ROW then r else r + 1) (if c < COLUMN then c else c + 1)
          else some (if r = c then 1 else 0)) := by
  have hview : ∀ (COLUMNS ROWS : Nat) (v : GenericSubMatrix T COLUMNS ROWS) (ROW COLUMN : Nat),
      ROW < v.rows → COLUMN < v.columns →
      ∃ w, v.subMatrix ROW COLUMN = some w ∧ w.rows + 1 = v.rows ∧ w.columns + 1 = v.columns ∧
        ∀ r c : Nat, w.get r c =
          if r < w.rows ∧ c < w.columns then
            v.get (if r < ROW then r else r + 1) (if c < COLUMN then c else c + 1)
          else some (if r = c then 1 else 0) := by
    intro COLUMNS ROWS v ROW COLUMN hR hC
    obtain ⟨w, h1, h2, h3, h4⟩ := GenericSubMatrix.subMatrix_get v ROW COLUMN hR hC
    refine ⟨w, h1, h2, h3, ?_⟩
    intro r c
    rw [h4]
    by_cases h : r < w.rows ∧ c < w.columns
    · simp only [if_pos h, skipIndex]
    · simp only [if_neg h]
      split <;> rfl
  refine ⟨?_, hview⟩
  intro C R M ROW COLUMN
  have hrows : (GenericMatrix.view M).rows = R + 1 := by
    simp [GenericMatrix.view, GenericSubMatrix.rows, ConstexprListSequence_eq]
  have hcols : (GenericMatrix.view M).columns = C + 1 := by
    simp [GenericMatrix.view, GenericSubMatrix.columns, ConstexprListSequence_eq]
  obtain ⟨w, h1, h2, h3, h4⟩ := hview (C + 1) (R + 1) (GenericMatrix.view M) ROW.1 COLUMN.1
    (by rw [hrows]; exact ROW.2) (by rw [hcols]; exact COLUMN.2)
  have hwr : w.rows = R := by omega
  have hwc : w.columns = C := by omega
  refine ⟨w, h1, hwr, hwc, ?_, ?_⟩
  · intro r c
    have hsr : (ROW.succAbove r).1 = (if r.1 < ROW.1 then r.1 else r.1 + 1) := by
      simp only [Fin.succAbove, Fin.lt_def, Fin.coe_castSucc]
      split <;> rfl
    have hsc : (COLUMN.succAbove c).1 = (if c.1 < COLUMN.1 then c.1 else c.1 + 1) := by
      simp only [Fin.succAbove, Fin.lt_def, Fin.coe_castSucc]
      split <;> rfl
    refine ⟨?_, hsr, hsc⟩
    rw [h4, if_pos ⟨by rw [hwr]; exact r.2, by rw [hwc]; exact c.2⟩, GenericMatrix.view_get,
      ← hsr, ← hsc]
    simp [GenericMatrix.get, GenericVector.get]
  · intro r c hrc
    rw [h4, if_neg (by rw [hwr, hwc]; omega)]

/-- C11, witness: the view `subMatrix<1, 0>()` of [[1,−2],[2,3]], and the view
`subMatrix<0, 1>()` of the whole-matrix view of the pivot matrix. -/
theorem C11_witness :
    (∃ V, GenericMatrix.subMatrix test_m 1 0 = some V ∧ V.rows = 1 ∧ V.columns = 1 ∧
      V.get 0 0 = some (-2) ∧ V.get 1 1 = some 1 ∧ V.get 0 1 = some 0) ∧
    ((0 < (GenericMatrix.view test_pivot).rows ∧ 1 < (GenericMatrix.view test_pivot).columns) ∧
      ∃ w, (GenericMatrix.view test_pivot).subMatrix 0 1 = some w ∧
        w.rows + 1 = (GenericMatrix.view test_pivot).rows ∧
        w.columns + 1 = (GenericMatrix.view test_pivot).columns ∧
        ∀ r c : Nat, w.get r c =
          if r < w.rows ∧ c < w.columns then
            (GenericMatrix.view test_pivot).get (if r < 0 then r else r + 1)
              (if c < 1 then c else c + 1)
          else some (if r = c then 1 else 0)) := by
  refine ⟨?_, ⟨by decide, by decide⟩,
    (@C11_subMatrix_view Int _).2 3 3 (GenericMatrix.view test_pivot) 0 1 (by decide) (by decide)⟩
  obtain ⟨V, h1, h2, h3, h4, h5⟩ := (@C11_subMatrix_view Int _).1 1 1 test_m 1 0
  refine ⟨V, h1, h2, h3, ?_, ?_, ?_⟩
  · exact (h4 0 0).1
  · exact h5 1 1 (Or.inl (le_refl 1))
  · exact h5 0 1 (Or.inr (le_refl 1))

/-- C12, the code at a failing input: the matrix [[1,2,3],[4,5,6]] with 2 rows and 3
columns has `dimension()` 3 and `determinant()` 0, while the determinant of the 3×3 matrix
padded with an identity block is −3; for the matrix with 3 rows and 2 columns of the
origin test `determinant()` has no well-formed instantiation. -/
theorem C12_failing_input :
    GenericMatrix.dimension 3 2 = 3 ∧
    GenericMatrix.determinant test_wide = some 0 ∧
    Matrix.det (GenericMatrix.padded test_wide 3) = -3 ∧
    GenericMatrix.dimension 2 3 = 3 ∧
    (GenericMatrix.determinant test_ccw32).isNone = true := by
  refine ⟨by decide, by decide, ?_, by decide, by decide⟩
  rw [Matrix.det_fin_three]
  simp [GenericMatrix.padded, GenericMatrix.get, GenericVector.get, test_wide, IDENTITY_VALUE,
    ZERO_VALUE]

/-- C13: for a Sub-Vector view over `u` with index list `L`, `get<I>()` is
`u.get<L[I]>()` when I < size(L) and `ZERO_VALUE` otherwise; `set<I>(v)` with
I < size(L) leaves `u` with `v` at position L[I] and every other position as it was, and
with I ≥ size(L) leaves `u` as it was. -/
theorem C13_subvector {T : Type} [CommRing T] {N : Nat} (u : GenericVector T N) (L : List Nat)
    (I : Nat) (v : T) :
    GenericSubVector.get ⟨u, L⟩ I =
      (if h : I < L.length then some (GenericVector.get u (L.get ⟨I, h⟩)) else some ZERO_VALUE) ∧
    GenericSubVector.set ⟨u, L⟩ I v =
      (if h : I < L.length then
        some (fun j => if j.1 = L.get ⟨I, h⟩ then v else u j)
      else some u) := by
  constructor
  · unfold GenericSubVector.get
    by_cases h : I < L.length
    · simp [h, ConstexprListGet_eq_getElem]
    · simp [h]
  · unfold GenericSubVector.set
    by_cases h : I < L.length
    · simp only [h, if_true, dif_pos, ConstexprListGet_eq_getElem, List.getElem?_eq_getElem,
        Option.map_some', List.get_eq_getElem]
      congr 1
      funext j
      unfold GenericVector.set
      by_cases hL : L[I] < N
      · rw [dif_pos hL]
        by_cases hj : j.1 = L[I]
        · have : j = ⟨L[I], hL⟩ := Fin.ext hj
          rw [this]; simp
        · have : j ≠ ⟨L[I], hL⟩ := fun h2 => hj (congrArg Fin.val h2)
          simp [Function.update_noteq this, hj]
      · rw [dif_neg hL]
        have : j.1 ≠ L[I] := by omega
        simp [this]
    · simp [h]

/-- C14: for i < N, `erase(i, sequence(N))` exists, has size N − 1, does not contain `i`,
contains every other value below N exactly once and keeps the ascending order of
`sequence(N)` = [0, ..., N − 1]; for any list `L` and position i < size(L), `erase(i, L)` is
`L` without the element at position `i`, the later elements moved left by one. -/
theorem C14_erase :
    (∀ (N i : Nat), i < N → ∃ l, ConstexprListErase i (ConstexprListSequence N 0) = some l ∧
      ConstexprListSequence N 0 = List.range N ∧
      l.length = N - 1 ∧ i ∉ l ∧ (∀ j, j < N → j ≠ i → l.count j = 1) ∧
      l.Sublist (ConstexprListSequence N 0) ∧ l.Pairwise (fun a b => a < b)) ∧
    (∀ (α : Type) (L : List α) (i : Nat), i < L.length →
      ∃ l, ConstexprListErase i L = some l ∧ l.length = L.length - 1 ∧
        l = L.take i ++ L.drop (i + 1) ∧
        ∀ k, l[k]? = if k < i then L[k]? else L[k + 1]?) := by
  constructor
  · intro N i hi
    have hsub : ((List.range N).eraseIdx i).Sublist (List.range N) := List.eraseIdx_sublist _ _
    refine ⟨(List.range N).eraseIdx i, ?_, ConstexprListSequence_eq_range N, ?_, ?_, ?_, ?_, ?_⟩
    · rw [ConstexprListErase_eq, ConstexprListSequence_eq_range]
      simp [hi]
    · rw [List.length_eraseIdx]; simp [hi]
    · intro h
      exact ((mem_eraseIdx_range N i i).1 h).2 rfl
    · intro j hj hji
      exact List.count_eq_one_of_mem ((List.nodup_range N).sublist hsub)
        ((mem_eraseIdx_range N i j).2 ⟨hj, hji⟩)
    · rw [ConstexprListSequence_eq_range]
      exact hsub
    · exact (List.pairwise_lt_range N).sublist hsub
  · intro α L i hi
    refine ⟨L.eraseIdx i, ?_, ?_, ?_, ?_⟩
    · rw [ConstexprListErase_eq]; simp [hi]
    · rw [List.length_eraseIdx]; simp [hi]
    · exact List.eraseIdx_eq_take_drop_succ L i
    · intro k
      exact List.getElem?_eraseIdx L i k

/-- C14, witness: `erase(1, sequence(3))` is [0, 2]. -/
theorem C14_witness :
    ConstexprListErase 1 (ConstexprListSequence 3 0) = some [0, 2] ∧
    1 < 3 ∧
    ∃ l, ConstexprListErase 1 (ConstexprListSequence 3 0) = some l ∧
      ConstexprListSequence 3 0 = List.range 3 ∧
      l.length = 3 - 1 ∧ 1 ∉ l ∧ (∀ j, j < 3 → j ≠ 1 → l.count j = 1) ∧
      l.Sublist (ConstexprListSequence 3 0) ∧ l.Pairwise (fun a b => a < b) :=
  ⟨by decide, by decide, C14_erase.1 3 1 (by decide)⟩

/-- C15: for begin ≤ end ≤ size(L), `range(begin, end, L)` exists and is
`head(end − begin, tail(begin, L))`; it has size end − begin and its element `k` is L's
element at begin + k; `head(end, L)` is the positions [0, end) and `tail(begin, L)` the
positions [begin, size) of `L`, in order. -/
theorem C15_range {α : Type} (L : List α) (b e : Nat) (hbe : b ≤ e) (he : e ≤ L.length) :
    ∃ tail range head, ConstexprListTail b L = some tail ∧
      ConstexprListHead (e - b) tail = some range ∧
      ConstexprListRange b e L = some range ∧
      range.length = e - b ∧ (∀ k, k < e - b → range[k]? = L[b + k]?) ∧
      ConstexprListHead e L = some head ∧
      head.length = e ∧ (∀ k, k < e → head[k]? = L[k]?) ∧
      tail.length = L.length - b ∧ (∀ k, tail[k]? = L[b + k]?) := by
  have hb : b ≤ L.length := le_trans hbe he
  have h1 : e - b ≤ (L.drop b).length := by simp; omega
  refine ⟨L.drop b, (L.drop b).take (e - b), L.take e, ?_, ?_, ?_, ?_, ?_, ?_, ?_, ?_, ?_, ?_⟩
  · simp [ConstexprListTail_eq, hb]
  · simp only [ConstexprListHead_eq, if_pos h1]
  · simp only [ConstexprListRange, ConstexprListTail_eq, if_pos hb, Option.bind_eq_bind,
      Option.some_bind, sizeSub, if_pos hbe, ConstexprListHead_eq, if_pos h1]
  · simp; omega
  · intro k hk
    rw [List.getElem?_take, if_pos hk, List.getElem?_drop]
  · simp [ConstexprListHead_eq, he]
  · simp [he]
  · intro k hk
    rw [List.getElem?_take, if_pos hk]
  · simp
  · intro k
    rw [List.getElem?_drop]

/-- C15, witness: `range(1, 3, [10, 11, 12, 13])` is [11, 12]. -/
theorem C15_witness :
    ConstexprListRange 1 3 [10, 11, 12, 13] = some [11, 12] ∧
    (1 ≤ 3 ∧ 3 ≤ [10, 11, 12, 13].length) ∧
    ∃ tail range head, ConstexprListTail 1 [10, 11, 12, 13] = some tail ∧
      ConstexprListHead (3 - 1) tail = some range ∧
      ConstexprListRange 1 3 [10, 11, 12, 13] = some range ∧
      range.length = 3 - 1 ∧ (∀ k, k < 3 - 1 → range[k]? = [10, 11, 12, 13][1 + k]?) ∧
      ConstexprListHead 3 [10, 11, 12, 13] = some head ∧
      head.length = 3 ∧ (∀ k, k < 3 → head[k]? = [10, 11, 12, 13][k]?) ∧
      tail.length = [10, 11, 12, 13].length - 1 ∧ (∀ k, tail[k]? = [10, 11, 12, 13][1 + k]?) :=
  ⟨by decide, by decide, C15_range [10, 11, 12, 13] 1 3 (by decide) (by decide)⟩

/-- C16, as amended: `set<I>(v)` on a Vector of length N with I ≥ N, and `set<R, C>(v)` on
a ROWS×COLUMNS Matrix with R ≥ ROWS or C ≥ COLUMNS, is an ordinary call that leaves every
element as it was. -/
theorem C16_set_out_of_bounds {T : Type} :
    (∀ (N : Nat) (u : GenericVector T N) (I : Nat) (v : T), N ≤ I → GenericVector.set u I v = u) ∧
    (∀ (COLUMNS ROWS : Nat) (M : GenericMatrix T COLUMNS ROWS) (R C : Nat) (v : T),
      ROWS ≤ R ∨ COLUMNS ≤ C → GenericMatrix.set M R C v = M) := by
  constructor
  · intro N u I v h
    unfold GenericVector.set
    rw [dif_neg (by omega)]
  · intro COLUMNS ROWS M R C v h
    unfold GenericMatrix.set
    rw [dif_neg (by omega)]

/-- C16, witness: `set<5>(7)` on the vector (1, 2) and `set<0, 2>(7)` on a 2×2 matrix. -/
theorem C16_witness :
    (2 ≤ 5 ∧ GenericVector.set (![1, 2] : GenericVector Int 2) 5 7 = ![1, 2]) ∧
    ((2 ≤ 0 ∨ 2 ≤ 2) ∧ GenericMatrix.set test_m 0 2 7 = test_m) :=
  ⟨⟨by decide, C16_set_out_of_bounds.1 2 ![1, 2] 5 7 (by decide)⟩,
    ⟨by decide, C16_set_out_of_bounds.2 2 2 test_m 0 2 7 (by decide)⟩⟩

/-- C16, counterexample: `set<2>(7)` on the vector (1, 2), and `set<2, 0>(7)` and
`set<0, 2>(7)` on the 2×2 matrix [[1,−2],[2,3]], complete and return the operand
unchanged: they are not refused. -/
theorem C16_counterexample :
    GenericVector.eq (GenericVector.set (![1, 2] : GenericVector Int 2) 2 7) ![1, 2] = true ∧
    GenericMatrix.eq (GenericMatrix.set test_m 2 0 7) test_m = true ∧
    GenericMatrix.eq (GenericMatrix.set test_m 0 2 7) test_m = true := by
  decide

/-- C17, as amended: for N ≥ 2 and an N×N matrix `M` over `int` whose `determinant()` is 1,
or is −1 while no minor determinant that `invert()` divides is `INT_MIN`, `invert()`
returns a matrix `inv` with `inv * M == identity()` and `M * inv == identity()`. -/
theorem C17_invert_unimodular (n : Nat)
    (M out result1 result2 : GenericMatrix CInt (n + 2) (n + 2))
    (rowResult1 rowResult2 : Fin (n + 2) → GenericVector CInt (n + 2))
    (h : GenericMatrix.determinant M = some 1 ∨
      (GenericMatrix.determinant M = some (-1) ∧
        ∀ row col : Fin (n + 2),
          (GenericMatrix.subMatrix M col.1 row.1).bind GenericSubMatrix.determinant ≠
            some INT_MIN)) :
    ∃ inv, GenericMatrix.invert CInt.div M out = some inv ∧
      GenericMatrix.eq (GenericMatrix.mul result1 rowResult1 inv M)
        (GenericMatrix.identity CInt (n + 2) (n + 2)) = true ∧
      GenericMatrix.eq (GenericMatrix.mul result2 rowResult2 M inv)
        (GenericMatrix.identity CInt (n + 2) (n + 2)) = true := by
  have hd := GenericMatrix.determinant_eq_det M
  have hres : ∃ inv, GenericMatrix.invert CInt.div M out = some inv ∧
      Matrix.of inv * Matrix.of M = 1 ∧ Matrix.of M * Matrix.of inv = 1 := by
    rcases h with h | ⟨h, hmin⟩
    · have h1 : Matrix.det (Matrix.of M) = 1 := by
        rw [hd] at h
        exact Option.some.inj h
      apply GenericMatrix.invert_exact CInt.div M out
      · rw [h1]; decide
      · rw [h1]; exact isUnit_one
      · intro row col
        rw [h1]
        exact ⟨_, CInt.div_one _, mul_one _⟩
    · have h1 : Matrix.det (Matrix.of M) = -1 := by
        rw [hd] at h
        exact Option.some.inj h
      apply GenericMatrix.invert_exact CInt.div M out
      · rw [h1]; decide
      · rw [h1]; exact isUnit_one.neg
      · intro row col
        rw [h1]
        have hc : Matrix.det ((Matrix.of M).submatrix col.succAbove row.succAbove) ≠ INT_MIN := by
          intro hc
          apply hmin row col
          rw [GenericMatrix.subMatrix_determinant_eq_det M col row, hc]
        have hs : (-1) ^ (row.1 + col.1) *
            Matrix.det ((Matrix.of M).submatrix col.succAbove row.succAbove) ≠ INT_MIN := by
          rcases neg_one_pow_eq_or CInt (row.1 + col.1) with hp | hp
          · rw [hp, one_mul]; exact hc
          · rw [hp, neg_one_mul]
            intro hneg
            apply hc
            have h2 : -INT_MIN = INT_MIN := by decide
            rw [← neg_neg (Matrix.det ((Matrix.of M).submatrix col.succAbove row.succAbove)),
              hneg, h2]
        refine ⟨_, CInt.div_neg_one _ hs, ?_⟩
        ring
  obtain ⟨inv, h1, h2, h3⟩ := hres
  exact ⟨inv, h1, (GenericMatrix.mul_eq_identity_iff _ _ _ _).2 h2,
    (GenericMatrix.mul_eq_identity_iff _ _ _ _).2 h3⟩

/-- C17, witness: the CCW rotation, whose inverse is the CW rotation, and the 3×3 pivot
matrix of the pivot test. -/
theorem C17_witness :
    (GenericMatrix.determinant (GenericMatrix.toCInt s_ccw) = some 1 ∧
      ∃ inv, GenericMatrix.invert CInt.div (GenericMatrix.toCInt s_ccw) (fun _ _ => 0) =
          some inv ∧
        GenericMatrix.eq
          (GenericMatrix.mul (fun _ _ => 0) (fun _ _ => 0) inv (GenericMatrix.toCInt s_ccw))
          (GenericMatrix.identity CInt 2 2) = true ∧
        GenericMatrix.eq
          (GenericMatrix.mul (fun _ _ => 0) (fun _ _ => 0) (GenericMatrix.toCInt s_ccw) inv)
          (GenericMatrix.identity CInt 2 2) = true) ∧
    (GenericMatrix.invert CInt.div (GenericMatrix.toCInt s_ccw) (fun _ _ => 0)).map
      (fun inv => GenericMatrix.eq inv (GenericMatrix.toCInt s_cw)) = some true ∧
    GenericMatrix.determinant (GenericMatrix.toCInt test_pivot) = some 1 ∧
    (GenericMatrix.invert CInt.div (GenericMatrix.toCInt test_pivot) (fun _ _ => 0)).map
      (fun inv =>
        GenericMatrix.eq
          (GenericMatrix.mul (fun _ _ => 0) (fun _ _ => 0) inv (GenericMatrix.toCInt test_pivot))
          (GenericMatrix.identity CInt 3 3) &&
        GenericMatrix.eq
          (GenericMatrix.mul (fun _ _ => 0) (fun _ _ => 0) (GenericMatrix.toCInt test_pivot) inv)
          (GenericMatrix.identity CInt 3 3)) = some true :=
  ⟨⟨by decide, C17_invert_unimodular 0 (GenericMatrix.toCInt s_ccw) (fun _ _ => 0)
      (fun _ _ => 0) (fun _ _ => 0) (fun _ _ => 0) (fun _ _ => 0) (Or.inl (by decide))⟩,
    by decide, by decide, by decide⟩

/-- C17, counterexample: the matrix [[INT_MIN,1],[1,0]] over `int` has determinant −1
(computed without overflow), the minor without row 1 and column 1 has determinant
`INT_MIN`, the quotient INT_MIN / −1 is not defined, and `invert()` produces no matrix. -/
theorem C17_counterexample :
    GenericMatrix.determinant test_int_min = some (-1) ∧
    (GenericMatrix.subMatrix test_int_min 1 1).bind GenericSubMatrix.determinant =
      some INT_MIN ∧
    CInt.div INT_MIN (-1) = none ∧
    (GenericMatrix.invert CInt.div test_int_min (fun _ _ => 0)).isNone = true := by
  decide

/-- C18, the code at a failing input: for the 1×1 matrix [2], `determinant()` is 2, the
view `subMatrix<0, 0>()` has no rows and no columns and its `determinant()` has no
well-formed instantiation, and so neither has `invert()`. -/
theorem C18_failing_input :
    GenericMatrix.determinant (![![2]] : GenericMatrix CInt 1 1) = some 2 ∧
    ((GenericMatrix.subMatrix (![![2]] : GenericMatrix CInt 1 1) 0 0).map
      (fun sub => (sub.rows, sub.columns, sub.determinant.isNone))) = some (0, 0, true) ∧
    GenericMatrix.invertInstantiates (![![2]] : GenericMatrix CInt 1 1) = false ∧
    (GenericMatrix.invert CInt.div (![![2]] : GenericMatrix CInt 1 1) ![![0]]).isNone = true := by
  decide

/-- C19: for N ≥ 1 the `determinant()` of an N×N matrix over a commutative ring is the
classical determinant, the Leibniz sum over the permutations (`Matrix.det`). -/
theorem C19_determinant_classical {T : Type} [CommRing T] (n : Nat)
    (M : GenericMatrix T (n + 1) (n + 1)) :
    GenericMatrix.determinant M = some (Matrix.det (Matrix.of M)) ∧
    Matrix.det (Matrix.of M) =
      ∑ σ : Equiv.Perm (Fin (n + 1)), Equiv.Perm.sign σ • ∏ i, M (σ i) i :=
  ⟨GenericMatrix.determinant_eq_det M, Matrix.det_apply _⟩

/-- C20: `(v * A) * B == v * (A * B)` for a vector of length K, a matrix with K rows and N
columns and a matrix with N rows and C columns; for K×K matrices `v *= A; v *= B` leaves
the same vector as `v *= (A * B)`; in the pivot test (1,1,1) passes through (2,2,1),
(1,3,1), (0,2,1) and returns to (1,1,1). -/
theorem C20_mul_assoc {T : Type} [CommRing T] [DecidableEq T] :
    (∀ (K N C : Nat) (v : GenericVector T K) (A : GenericMatrix T N K) (B : GenericMatrix T C N)
      (r1 r4 : GenericVector T C) (r2 : GenericVector T N) (r3 : GenericMatrix T C K)
      (rr3 : Fin K → GenericVector T C),
      GenericVector.eq
        (GenericVector.mulMatrix (le_refl N) r1 (GenericVector.mulMatrix (le_refl K) r2 v A) B)
        (GenericVector.mulMatrix (le_refl K) r4 v (GenericMatrix.mul r3 rr3 A B)) = true) ∧
    (∀ (K : Nat) (v r1 r2 r4 : GenericVector T K) (A B r3 : GenericMatrix T K K)
      (rr3 : Fin K → GenericVector T K),
      GenericVector.mulAssign (le_refl K) r1 (GenericVector.mulAssign (le_refl K) r2 v A) B =
        GenericVector.mulAssign (le_refl K) r4 v (GenericMatrix.mul r3 rr3 A B)) ∧
    (GenericMatrix.invert CInt.div (GenericMatrix.toCInt test_pivot) (fun _ _ => 0)).map
      (fun inv =>
        let ccwAroundPivot := GenericMatrix.mul (fun _ _ => 0) (fun _ _ => 0)
          (GenericMatrix.mul (fun _ _ => 0) (fun _ _ => 0) inv (GenericMatrix.toCInt test_ccw3))
          (GenericMatrix.toCInt test_pivot)
        let v1 := GenericVector.mulAssign (le_refl 3) (fun _ => 0) ![1, 1, 1] ccwAroundPivot
        let v2 := GenericVector.mulAssign (le_refl 3) (fun _ => 0) v1 ccwAroundPivot
        let v3 := GenericVector.mulAssign (le_refl 3) (fun _ => 0) v2 ccwAroundPivot
        let v4 := GenericVector.mulAssign (le_refl 3) (fun _ => 0) v3 ccwAroundPivot
        GenericVector.eq v1 ![2, 2, 1] && GenericVector.eq v2 ![1, 3, 1] &&
          GenericVector.eq v3 ![0, 2, 1] && GenericVector.eq v4 ![1, 1, 1]) = some true := by
  refine ⟨?_, ?_, by decide⟩
  · intro K N C v A B r1 r4 r2 r3 rr3
    rw [GenericVector.eq_true_iff_vec]
    exact GenericVector.mulMatrix_assoc v A B r1 r4 r2 r3 rr3
  · intro K v r1 r2 r4 A B r3 rr3
    exact GenericVector.mulMatrix_assoc v A B r1 r4 r2 r3 rr3

/-- C21: every index list obtained from `sequence(N)` by erasing at valid positions, any
number of times, is strictly increasing with all entries below N; the row and column lists
of every view obtained from a matrix by repeated `subMatrix` calls are duplicate-free and
in bounds, and the view reads the matrix through strictly increasing maps of its rows and
columns, so distinct view positions read distinct elements of the matrix.  The first
`subMatrix` call on the matrix is the one on its whole-matrix view. -/
theorem C21_index_lists {T : Type} [CommRing T] :
    (∀ (N : Nat) (is L : List Nat), eraseMany is (ConstexprListSequence N 0) = some L →
      L.Pairwise (fun a b => a < b) ∧ ∀ x ∈ L, x < N) ∧
    (∀ (COLUMNS ROWS : Nat) (M : GenericMatrix T COLUMNS ROWS) (ps : List (Nat × Nat))
      (v : GenericSubMatrix T COLUMNS ROWS),
      subMatrixMany ps (GenericMatrix.view M) = some v →
      v.m_matrix = M ∧ v.RowList.Nodup ∧ v.ColumnList.Nodup ∧
      (∀ x ∈ v.RowList, x < ROWS) ∧ (∀ x ∈ v.ColumnList, x < COLUMNS) ∧
      ∃ (rowOf : Fin v.rows → Fin ROWS) (columnOf : Fin v.columns → Fin COLUMNS),
        (∀ r, (rowOf r).1 = v.RowList.getD r.1 0) ∧
        (∀ c, (columnOf c).1 = v.ColumnList.getD c.1 0) ∧
        StrictMono rowOf ∧ StrictMono columnOf ∧
        (∀ r c, v.get r.1 c.1 = some (M (rowOf r) (columnOf c))) ∧
        (∀ r c r2 c2, (r, c) ≠ (r2, c2) → (rowOf r, columnOf c) ≠ (rowOf r2, columnOf c2))) ∧
    (∀ (COLUMNS ROWS : Nat) (M : GenericMatrix T COLUMNS ROWS) (ROW COLUMN : Nat),
      GenericMatrix.subMatrix M ROW COLUMN =
        subMatrixMany [(ROW, COLUMN)] (GenericMatrix.view M)) := by
  refine ⟨?_, ?_, ?_⟩
  · intro N is L h
    have hs := eraseMany_sublist is _ _ h
    rw [ConstexprListSequence_eq_range] at hs
    exact ⟨(sublist_range_facts N L hs).1, (sublist_range_facts N L hs).2.1⟩
  · intro COLUMNS ROWS M ps v h
    obtain ⟨hm, hr, hc⟩ := subMatrixMany_lists ps _ _ h
    obtain ⟨M2, rows, cols⟩ := v
    simp only [GenericMatrix.view] at hm hr hc
    subst hm
    have hrs := eraseMany_sublist _ _ _ hr
    have hcs := eraseMany_sublist _ _ _ hc
    rw [ConstexprListSequence_eq_range] at hrs hcs
    obtain ⟨hrp, hrb, hrn⟩ := sublist_range_facts ROWS rows hrs
    obtain ⟨hcp, hcb, hcn⟩ := sublist_range_facts COLUMNS cols hcs
    have hrowlt : ∀ r : Fin rows.length, rows.getD r.1 0 < ROWS := by
      intro r
      rw [List.getD_eq_getElem _ _ r.2]
      exact hrb _ (List.getElem_mem _)
    have hcollt : ∀ c : Fin cols.length, cols.getD c.1 0 < COLUMNS := by
      intro c
      rw [List.getD_eq_getElem _ _ c.2]
      exact hcb _ (List.getElem_mem _)
    have hmr : StrictMono (fun r : Fin rows.length => (⟨rows.getD r.1 0, hrowlt r⟩ : Fin ROWS)) := by
      intro a b hab
      exact getElem_strictMono rows hrp a.1 b.1 a.2 b.2 hab
    have hmc : StrictMono
        (fun c : Fin cols.length => (⟨cols.getD c.1 0, hcollt c⟩ : Fin COLUMNS)) := by
      intro a b hab
      exact getElem_strictMono cols hcp a.1 b.1 a.2 b.2 hab
    refine ⟨rfl, hrn, hcn, hrb, hcb, fun r => ⟨rows.getD r.1 0, hrowlt r⟩,
      fun c => ⟨cols.getD c.1 0, hcollt c⟩, fun _ => rfl, fun _ => rfl, hmr, hmc, ?_, ?_⟩
    · intro r c
      rw [GenericSubMatrix.get_of_lt M2 rows cols r.1 c.1 r.2 c.2 hrb,
        GenericMatrix.entry_of_lt M2 _ _ (hrowlt r) (hcollt c)]
    · intro r c r2 c2 hne heq
      apply hne
      have h1 := hmr.injective (Prod.mk.inj heq).1
      have h2 := hmc.injective (Prod.mk.inj heq).2
      rw [h1, h2]
  · intro COLUMNS ROWS M ROW COLUMN
    simp only [subMatrixMany]
    cases h : (GenericMatrix.view M).subMatrix ROW COLUMN with
    | none => exact h
    | some w => exact h

/-- C21, witness: erasing positions 1 and 0 from `sequence(3)` leaves [2]; two `subMatrix`
calls on the pivot matrix leave the row list [1] and the column list [2]. -/
theorem C21_witness :
    eraseMany [1, 0] (ConstexprListSequence 3 0) = some [2] ∧
    ([2].Pairwise (fun a b => a < b) ∧ ∀ x ∈ [2], x < 3) ∧
    (subMatrixMany [(0, 1), (1, 0)] (GenericMatrix.view test_pivot)).map
      (fun v => (v.RowList, v.ColumnList)) = some ([1], [2]) :=
  ⟨by decide, (@C21_index_lists Int _).1 3 [1, 0] [2] (by decide), by decide⟩
